import Mathlib

/-!
# Lib::generator and Lib::fmap (Generator.cpp)

A shallow embedding of the coroutine generator of `src/Generator.cpp`.

* Coroutine states live in a heap; a `coroutine_handle` is a null-or-address
  value, so a `generator` and the `iterator`s obtained from it alias the same
  coroutine state, as in the source.
* A coroutine body is a step function on its saved variables: from a resume
  point it runs to the next `co_yield`, to the end of the body, or to an
  escaping exception.
* Library preconditions that the source does not check (resuming a null or a
  finished coroutine, reading through an unset or dangling pointer) are
  modelled as explicit `Fault` results.
-/

namespace Lib

/-- Ways in which an operation fails to return a result.  `InvalidState` is the
reported error of the spec's taxonomy; no statement of the source raises it.
The remaining constructors are violated preconditions of the language and its
library, i.e. undefined behaviour:
`null_handle`: `resume`/`done`/`promise` on a null `coroutine_handle`;
`destroyed_frame`: the handle refers to no live coroutine state;
`resume_at_final`: `resume` on a coroutine suspended at its final suspend point;
`indeterminate_pointer`: read through a pointer that was never assigned;
`dangling_pointer`: read through a pointer to an object whose lifetime ended. -/
inductive Fault where
  | InvalidState
  | null_handle
  | destroyed_frame
  | resume_at_final
  | indeterminate_pointer
  | dangling_pointer
  deriving DecidableEq

/-- Where a coroutine is suspended.  `initial`: at `initial_suspend` (created,
body not entered; the spec's NotStarted).  `yield`: at a `co_yield` (the spec's
Suspended).  `final`: at `final_suspend` (the spec's Completed). -/
inductive SuspendPoint where
  | initial
  | yield
  | final
  deriving DecidableEq

/-- The type `promise_type::pointer_type`.  `indeterminate`: the value of
`m_value` after default-initialisation.  `operand k`: the address of the
object designated by the operand of the `k`-th `co_yield` evaluated by the
coroutine. -/
inductive pointer_type where
  | indeterminate
  | operand (k : Nat)
  deriving DecidableEq

/-- The struct `generator<T>::promise_type`: its only data member is `m_value`. -/
structure promise_type where
  m_value : pointer_type
  deriving DecidableEq

/-- The defaulted constructor `promise_type() = default`: `m_value` has no
initialiser. -/
def promise_type.default : promise_type := { m_value := pointer_type.indeterminate }

/-- The member `void unhandled_exception() {}`: the exception is dropped and the
promise is left as it is. -/
def promise_type.unhandled_exception (p : promise_type) : promise_type := p

/-- The member `void return_void() {}`: the promise is left as it is. -/
def promise_type.return_void (p : promise_type) : promise_type := p

/-- The member `yield_value(value)`: `m_value = std::addressof(value)`. -/
def promise_type.yield_value (_p : promise_type) (value : pointer_type) : promise_type :=
  { m_value := value }

/-- What running a coroutine body from a resume point produces.
`co_yield v s`: the body reached `co_yield e` with variables `s`, where the
operand `e` (any rvalue: a temporary, or an xvalue such as `std::move(x)`)
designates an object of value `v`.
`co_return s kept`: control flowed off the end of the body.
`exception s kept`: an exception escaped the body.
In both, `kept` tells what has become of the object designated by the operand
of the latest `co_yield`: `none` when its lifetime has ended (a temporary, a
local that went out of scope), `some v` when it is still alive with value `v`
(a coroutine parameter, a static).
`undefined f`: the body violated a precondition. -/
inductive Outcome (σ T : Type) where
  | co_yield (value : T) (next : σ)
  | co_return (last : σ) (kept : Option T)
  | exception (last : σ) (kept : Option T)
  | undefined (f : Fault)

/-- The state of one coroutine invocation.
`point`: where it is suspended; `vars`: parameters and locals saved across the
suspension; `operand`: the value of the object designated by the operand of the
latest `co_yield`, while that object is alive: it is alive while the coroutine
is suspended at that `co_yield`, and at the final suspend point when the body
says so (`kept`);
`promise`: the promise object; `yields`: how many `co_yield`s have been
evaluated; `resumes`: how many times control entered the body. -/
structure Frame (σ T : Type) where
  point : SuspendPoint
  vars : σ
  operand : Option T
  promise : promise_type
  yields : Nat
  resumes : Nat

/-- Memory holding coroutine states: cell `a` is `some fr` while the state at
address `a` is alive and `none` once it is destroyed. -/
abbrev Heap (σ T : Type) := List (Option (Frame σ T))

/-- The coroutine state at address `a`, if alive. -/
def Heap.frame {σ T : Type} (heap : Heap σ T) (a : Nat) : Option (Frame σ T) :=
  (heap[a]?).join

/-- A `std::coroutine_handle<promise_type>`: null or the address of a state. -/
abbrev coroutine_handle := Option Nat

/-- The library call `coroutine_handle::done()`: true iff suspended at the final
suspend point. -/
def coroutine_handle.done {σ T : Type} (h : coroutine_handle) (heap : Heap σ T) :
    Except Fault Bool :=
  match h with
  | none => Except.error Fault.null_handle
  | some a =>
    match heap.frame a with
    | none => Except.error Fault.destroyed_frame
    | some fr => Except.ok (decide (fr.point = SuspendPoint.final))

/-- The library call `coroutine_handle::resume()` for a coroutine whose body is
`body` and whose promise is `promise_type`: the body runs from the saved
variables; at a `co_yield` the operand is materialised, `yield_value` is
called with it and the coroutine suspends (`suspend_always`); at the end of the
body `return_void` is called, after an escaping exception
`unhandled_exception`, and in both cases the coroutine suspends at
`final_suspend` (`suspend_always`). -/
def coroutine_handle.resume {σ T : Type} (body : σ → Outcome σ T)
    (h : coroutine_handle) (heap : Heap σ T) : Except Fault (Heap σ T) :=
  match h with
  | none => Except.error Fault.null_handle
  | some a =>
    match heap.frame a with
    | none => Except.error Fault.destroyed_frame
    | some fr =>
      match fr.point with
      | SuspendPoint.final => Except.error Fault.resume_at_final
      | _ =>
        match body fr.vars with
        | Outcome.co_yield v s =>
          Except.ok (heap.set a (some
            { point := SuspendPoint.yield, vars := s, operand := some v,
              promise := fr.promise.yield_value (pointer_type.operand (fr.yields + 1)),
              yields := fr.yields + 1, resumes := fr.resumes + 1 }))
        | Outcome.co_return s kept =>
          Except.ok (heap.set a (some
            { point := SuspendPoint.final, vars := s, operand := kept,
              promise := fr.promise.return_void,
              yields := fr.yields, resumes := fr.resumes + 1 }))
        | Outcome.exception s kept =>
          Except.ok (heap.set a (some
            { point := SuspendPoint.final, vars := s, operand := kept,
              promise := fr.promise.unhandled_exception,
              yields := fr.yields, resumes := fr.resumes + 1 }))
        | Outcome.undefined f => Except.error f

/-- The library call `coroutine_handle::destroy()`. -/
def coroutine_handle.destroy {σ T : Type} (h : coroutine_handle) (heap : Heap σ T) :
    Except Fault (Heap σ T) :=
  match h with
  | none => Except.error Fault.null_handle
  | some a =>
    match heap.frame a with
    | none => Except.error Fault.destroyed_frame
    | some _ => Except.ok (heap.set a none)

/-- The member `promise_type::value()`: `*m_value`, read in the coroutine state
that holds the promise.  The pointee is the object designated by the operand of
the `k`-th `co_yield`; the read is defined when that `co_yield` is the latest
one and its object is alive (`fr.operand`). -/
def Frame.value {σ T : Type} (fr : Frame σ T) : Except Fault T :=
  match fr.promise.m_value with
  | pointer_type.indeterminate => Except.error Fault.indeterminate_pointer
  | pointer_type.operand k =>
    match fr.operand with
    | none => Except.error Fault.dangling_pointer
    | some v => if k = fr.yields then Except.ok v else Except.error Fault.dangling_pointer

/-- The struct `generator<T>::sentinel`. -/
structure sentinel where
  deriving DecidableEq

/-- The class `generator<T>::iterator`: its only data member is `m_coroutine`. -/
structure iterator where
  m_coroutine : coroutine_handle
  deriving DecidableEq

/-- The constructor `iterator( coroutine_handle coroutine = {} )`; the
default-constructed iterator is `iterator.ctor none`. -/
def iterator.ctor (coroutine : coroutine_handle) : iterator :=
  { m_coroutine := coroutine }

/-- The operator `operator==(const iterator& it, sentinel)`:
`!it.m_coroutine || it.m_coroutine.done()`. -/
def iterator.operator_eq {σ T : Type} (it : iterator) (_s : sentinel) (heap : Heap σ T) :
    Except Fault Bool :=
  match it.m_coroutine with
  | none => Except.ok true
  | some a => coroutine_handle.done (some a) heap

/-- The operator `operator!=(const iterator& it, sentinel s)`: `!(it == s)`. -/
def iterator.operator_ne {σ T : Type} (it : iterator) (s : sentinel) (heap : Heap σ T) :
    Except Fault Bool :=
  match it.operator_eq s heap with
  | Except.ok b => Except.ok (!b)
  | Except.error f => Except.error f

/-- The operator `operator==(sentinel s, const iterator& it)`: `(it == s)`. -/
def sentinel.operator_eq {σ T : Type} (s : sentinel) (it : iterator) (heap : Heap σ T) :
    Except Fault Bool :=
  it.operator_eq s heap

/-- The operator `operator!=(sentinel s, const iterator& it)`: `it != s`. -/
def sentinel.operator_ne {σ T : Type} (s : sentinel) (it : iterator) (heap : Heap σ T) :
    Except Fault Bool :=
  it.operator_ne s heap

/-- The operator `iterator& operator++()`: `m_coroutine.resume(); return *this;`. -/
def iterator.operator_inc {σ T : Type} (body : σ → Outcome σ T) (it : iterator)
    (heap : Heap σ T) : Except Fault (iterator × Heap σ T) :=
  match coroutine_handle.resume body it.m_coroutine heap with
  | Except.ok heap1 => Except.ok (it, heap1)
  | Except.error f => Except.error f

/-- The operator `reference operator*() const`: `m_coroutine.promise().value()`. -/
def iterator.operator_deref {σ T : Type} (it : iterator) (heap : Heap σ T) :
    Except Fault T :=
  match it.m_coroutine with
  | none => Except.error Fault.null_handle
  | some a =>
    match heap.frame a with
    | none => Except.error Fault.destroyed_frame
    | some fr => fr.value

/-- The class `generator<T>`: its only data member is `m_coroutine`. -/
structure generator where
  m_coroutine : coroutine_handle
  deriving DecidableEq

/-- The move constructor `generator( generator&& other )`: the new object takes
`other.m_coroutine` and `other.m_coroutine = nullptr`.  Returns the new object
and `other` afterwards. -/
def generator.move (other : generator) : generator × generator :=
  ({ m_coroutine := other.m_coroutine }, { m_coroutine := none })

/-- The member `generator::begin()`:
`if( m_coroutine ) m_coroutine.resume(); return iterator{ m_coroutine };`. -/
def generator.begin {σ T : Type} (body : σ → Outcome σ T) (g : generator)
    (heap : Heap σ T) : Except Fault (iterator × Heap σ T) :=
  match g.m_coroutine with
  | none => Except.ok (iterator.ctor g.m_coroutine, heap)
  | some a =>
    match coroutine_handle.resume body (some a) heap with
    | Except.ok heap1 => Except.ok (iterator.ctor g.m_coroutine, heap1)
    | Except.error f => Except.error f

/-- The destructor `~generator()`: `if( m_coroutine ) m_coroutine.destroy();`. -/
def generator.destructor {σ T : Type} (g : generator) (heap : Heap σ T) :
    Except Fault (Heap σ T) :=
  match g.m_coroutine with
  | none => Except.ok heap
  | some a => coroutine_handle.destroy (some a) heap

/-- The member `generator::swap( generator& other )`:
`std::swap( m_coroutine, other.m_coroutine )`.  Returns `*this` and `other`
afterwards. -/
def generator.swap (g other : generator) : generator × generator :=
  ({ m_coroutine := other.m_coroutine }, { m_coroutine := g.m_coroutine })

/-- The operator `generator& operator=( generator other )`: the by-value
parameter `other` is move-constructed from the argument, `swap( other )` runs,
and `other` is destroyed when the call ends.  Returns `*this` and the argument
(an object other than `*this`) afterwards, and the memory. -/
def generator.operator_assign {σ T : Type} (g arg : generator) (heap : Heap σ T) :
    Except Fault (generator × generator × Heap σ T) :=
  match (g.swap (generator.move arg).1).2.destructor heap with
  | Except.ok heap1 => Except.ok ((g.swap (generator.move arg).1).1, (generator.move arg).2, heap1)
  | Except.error f => Except.error f

/-- The member `generator::end()`: `return sentinel{};`. -/
def generator.end_ (_g : generator) : sentinel := {}

/-- Calling a coroutine function whose return type is `generator<T>`: a state
is allocated, the arguments are stored in it, the promise is
default-constructed, `get_return_object` builds the generator from the handle
of the new state, and `initial_suspend` (`suspend_always`) suspends the
coroutine before its body is entered. -/
def invoke {σ T : Type} (args : σ) (heap : Heap σ T) : generator × Heap σ T :=
  ({ m_coroutine := some heap.length },
   heap ++ [some { point := SuspendPoint.initial, vars := args, operand := none,
                   promise := promise_type.default, yields := 0, resumes := 0 }])

/-- The values read, the number of `++` performed, the iterator and the memory
at the exit of an iteration loop. -/
structure Iteration (σ T : Type) where
  values : List T
  advances : Nat
  it : iterator
  heap : Heap σ T

/-- The loop `for ( ; it != end; ++it ) { read *it; }` run for at most `fuel`
tests of the condition; `none` when the fuel is used up before the loop exits. -/
def iterate {σ T : Type} (body : σ → Outcome σ T) :
    Nat → iterator → Heap σ T → Except Fault (Option (Iteration σ T))
  | 0, _, _ => Except.ok none
  | fuel + 1, it, heap =>
    match it.operator_ne ({} : sentinel) heap with
    | Except.error f => Except.error f
    | Except.ok false =>
      Except.ok (some { values := [], advances := 0, it := it, heap := heap })
    | Except.ok true =>
      match it.operator_deref heap with
      | Except.error f => Except.error f
      | Except.ok v =>
        match it.operator_inc body heap with
        | Except.error f => Except.error f
        | Except.ok (it1, heap1) =>
          match iterate body fuel it1 heap1 with
          | Except.error f => Except.error f
          | Except.ok none => Except.ok none
          | Except.ok (some r) =>
            Except.ok (some { r with values := v :: r.values, advances := r.advances + 1 })

/-- The range-based loop `for( auto i : g ) read i;` as in `main`:
`it = g.begin(); e = g.end(); for ( ; it != e; ++it ) read *it;`. -/
def range_for {σ T : Type} (body : σ → Outcome σ T) (fuel : Nat) (g : generator)
    (heap : Heap σ T) : Except Fault (Option (Iteration σ T)) :=
  match g.begin body heap with
  | Except.error f => Except.error f
  | Except.ok (it, heap1) => iterate body fuel it heap1

/-- The variables of the coroutine `fmap`: the parameters `func` (`none` models
a call that throws) and `source`, the memory in which the state owned by
`source` lives, the loop iterator of the range-based `for` (`none` outside the
loop) and the number of calls of `func` made so far. -/
structure fmap_vars (σ S U : Type) where
  func : S → Option U
  source : generator
  memory : Heap σ S
  it : Option iterator
  invoked : Nat

/-- The body of the coroutine `fmap`:
`for (auto&& value : source) co_yield std::invoke(func, value);`
from a resume point to the next suspension.  Entered from the initial suspend
point it runs `source.begin()`, resumed after a `co_yield` it runs `++it`; then
the loop condition `it != source.end()`, `*it` and the call of `func`.  The
operand of its `co_yield` is the temporary result of the call, so it is dead
once the body has ended (`none`). -/
def fmap_body {σ S U : Type} (src : σ → Outcome σ S) (v : fmap_vars σ S U) :
    Outcome (fmap_vars σ S U) U :=
  let step :=
    match v.it with
    | none => v.source.begin src v.memory
    | some b => b.operator_inc src v.memory
  match step with
  | Except.error f => Outcome.undefined f
  | Except.ok (b, mem) =>
    match b.operator_ne v.source.end_ mem with
    | Except.error f => Outcome.undefined f
    | Except.ok false => Outcome.co_return { v with memory := mem, it := none } none
    | Except.ok true =>
      match b.operator_deref mem with
      | Except.error f => Outcome.undefined f
      | Except.ok value =>
        match v.func value with
        | none =>
          Outcome.exception { v with memory := mem, it := none, invoked := v.invoked + 1 }
            none
        | some r =>
          Outcome.co_yield r { v with memory := mem, it := some b, invoked := v.invoked + 1 }

/-- The coroutine function `fmap(FUNC func, generator<T> source)`: the by-value
parameter `source` is move-constructed from the caller's generator, whose
coroutine state lives in `memory`. -/
def fmap {σ S U : Type} (func : S → Option U) (source : generator) (memory : Heap σ S)
    (heap : Heap (fmap_vars σ S U) U) : generator × Heap (fmap_vars σ S U) U :=
  invoke { func := func, source := (generator.move source).1, memory := memory,
           it := none, invoked := 0 } heap

end Lib

namespace Test

/-- The body of `Test::Range12`, `co_yield 1; co_yield 2;`, with the number of
`co_yield`s already passed as its only variable; both operands are temporaries. -/
def Range12_body (pc : Nat) : Lib.Outcome Nat Int :=
  match pc with
  | 0 => Lib.Outcome.co_yield 1 1
  | 1 => Lib.Outcome.co_yield 2 2
  | _ => Lib.Outcome.co_return 2 none

/-- The call `Test::Range12()`. -/
def Range12 (heap : Lib.Heap Nat Int) : Lib.generator × Lib.Heap Nat Int :=
  Lib.invoke 0 heap

/-- The memory after `Test::Range12().begin()`, started in an empty memory: the
coroutine at address `0` is suspended at its first `co_yield` with operand `1`. -/
def Range12_begun : Lib.Heap Nat Int :=
  [some { point := Lib.SuspendPoint.yield, vars := 1, operand := some 1,
          promise := { m_value := Lib.pointer_type.operand 1 },
          yields := 1, resumes := 1 }]

/-- The memory left by the loop of `main`, `for( auto i : Test::Range12() )`,
started in an empty memory: the coroutine at address `0` is at its final
suspend point after two `co_yield`s and three resumptions. -/
def Range12_exhausted : Lib.Heap Nat Int :=
  [some { point := Lib.SuspendPoint.final, vars := 2, operand := none,
          promise := { m_value := Lib.pointer_type.operand 2 },
          yields := 2, resumes := 3 }]

end Test

namespace Lib

/-- How a producer finishes: by reaching the end of its body or by an escaping
exception. -/
inductive Ending where
  | returns
  | throws
  deriving DecidableEq

/-- The producer `body`, run from variables `s`, emits exactly the values `vs`
through successive `co_yield`s and then finishes as `e` says. -/
def emits {σ T : Type} (body : σ → Outcome σ T) (e : Ending) : σ → List T → Prop
  | s, [] =>
    match e with
    | Ending.returns => ∃ s1 kept, body s = Outcome.co_return s1 kept
    | Ending.throws => ∃ s1 kept, body s = Outcome.exception s1 kept
  | s, v :: vs => ∃ s1, body s = Outcome.co_yield v s1 ∧ emits body e s1 vs

/-- The relation between the suspension point, the promise's `m_value` and the
operand object of a coroutine state.
At the initial suspend point `m_value` is still indeterminate and no operand
exists.  At a `co_yield`, `m_value` is the address of the operand of the latest
`co_yield`, which is alive.  At the final suspend point `m_value` is what the
last `yield_value` left in it: indeterminate when no `co_yield` was evaluated,
otherwise the address of the latest operand (whether that object is still
alive is the producer's matter). -/
def Frame.slot_inv {σ T : Type} (fr : Frame σ T) : Prop :=
  match fr.point with
  | SuspendPoint.initial =>
    fr.promise.m_value = pointer_type.indeterminate ∧ fr.operand = none ∧ fr.yields = 0
  | SuspendPoint.yield =>
    fr.promise.m_value = pointer_type.operand fr.yields ∧ fr.operand.isSome = true ∧
      0 < fr.yields
  | SuspendPoint.final =>
    fr.promise.m_value =
      (if fr.yields = 0 then pointer_type.indeterminate else pointer_type.operand fr.yields)

/-- Every live coroutine state of the memory satisfies `Frame.slot_inv`. -/
def Heap.slot_inv {σ T : Type} (heap : Heap σ T) : Prop :=
  ∀ a fr, Heap.frame heap a = some fr → fr.slot_inv

/-- The consumer statement sequence `++it; ++it; ...` with `k` advances. -/
def advance {σ T : Type} (body : σ → Outcome σ T) :
    Nat → iterator → Heap σ T → Except Fault (iterator × Heap σ T)
  | 0, it, heap => Except.ok (it, heap)
  | k + 1, it, heap =>
    match it.operator_inc body heap with
    | Except.error f => Except.error f
    | Except.ok (it1, heap1) => advance body k it1 heap1

/-- The consumer statement sequence `it = g.begin(); ++it; ...; ++it;` with `k`
advances after the call of `begin`. -/
def begin_advance {σ T : Type} (body : σ → Outcome σ T) (k : Nat) (g : generator)
    (heap : Heap σ T) : Except Fault (iterator × Heap σ T) :=
  match g.begin body heap with
  | Except.error f => Except.error f
  | Except.ok (it, heap1) => advance body k it heap1

/-- The read-only operations a consumer can apply to an iterator `it`:
`*it`, `it == s`, `it != s`, `s == it`, `s != it`. -/
inductive Observation where
  | deref
  | eq
  | ne
  | sentinel_eq
  | sentinel_ne
  deriving DecidableEq

/-- The result of an `Observation`: a value for `*it`, a truth value for a
comparison. -/
inductive Observed (T : Type) where
  | value (r : Except Fault T)
  | truth (r : Except Fault Bool)

/-- Performing one `Observation` on the iterator `it` in the memory `heap`.  The
operators are `const` in the source and write nothing, so no memory is returned. -/
def observe {σ T : Type} (it : iterator) (heap : Heap σ T) : Observation → Observed T
  | Observation.deref => Observed.value (it.operator_deref heap)
  | Observation.eq => Observed.truth (it.operator_eq ({} : sentinel) heap)
  | Observation.ne => Observed.truth (it.operator_ne ({} : sentinel) heap)
  | Observation.sentinel_eq => Observed.truth (sentinel.operator_eq {} it heap)
  | Observation.sentinel_ne => Observed.truth (sentinel.operator_ne {} it heap)

/-- What each `Observation` returns on an iterator whose coroutine is suspended
at a `co_yield` with operand `v`: the value `v`, "not equal to the sentinel". -/
def observed_at_yield {T : Type} (v : T) : Observation → Observed T
  | Observation.deref => Observed.value (Except.ok v)
  | Observation.eq => Observed.truth (Except.ok false)
  | Observation.ne => Observed.truth (Except.ok true)
  | Observation.sentinel_eq => Observed.truth (Except.ok false)
  | Observation.sentinel_ne => Observed.truth (Except.ok true)

/-- The number of generator objects among `gs` whose `m_coroutine` is the
address `a`, i.e. that would destroy the coroutine state at `a` in their
destructor. -/
def owners (a : Nat) (gs : List generator) : Nat :=
  gs.countP (fun g => decide (g.m_coroutine = some a))

/-- The self-assignment `g = std::move(g)` through
`generator& operator=( generator other )`: `other` is move-constructed from `g`
(which becomes null), `swap( other )` gives the handle back to `g`, and the
null `other` is destroyed.  Returns `g` afterwards and the memory.
(`generator.operator_assign` is the assignment between two distinct objects.) -/
def generator.operator_assign_self {σ T : Type} (g : generator) (heap : Heap σ T) :
    Except Fault (generator × Heap σ T) :=
  match ((generator.move g).2.swap (generator.move g).1).2.destructor heap with
  | Except.ok heap1 => Except.ok (((generator.move g).2.swap (generator.move g).1).1, heap1)
  | Except.error f => Except.error f

/-- The coroutine `fmap` with state `fr`, whose source coroutine has state
`sfr` at address `a` of the memory held by `fr`, is suspended at its `co_yield`
after `n` resumptions since its creation: its operand is `u`, the result of the
`n`-th call of `func`, made on the value `w` at which the source is suspended
after emitting `n` values; the source still has `rest` to emit. -/
structure fmap_at_yield {σ S U : Type} (src : σ → Outcome σ S) (e : Ending)
    (func : S → Option U) (a : Nat) (fr : Frame (fmap_vars σ S U) U) (sfr : Frame σ S)
    (w : S) (u : U) (n : Nat) (rest : List S) : Prop where
  point : fr.point = SuspendPoint.yield
  operand : fr.operand = some u
  m_value : fr.promise.m_value = pointer_type.operand fr.yields
  yields : fr.yields = n
  resumes : fr.resumes = n
  func : fr.vars.func = func
  source : fr.vars.source.m_coroutine = some a
  it : fr.vars.it = some { m_coroutine := some a }
  invoked : fr.vars.invoked = n
  memory : Heap.frame fr.vars.memory a = some sfr
  source_point : sfr.point = SuspendPoint.yield
  source_operand : sfr.operand = some w
  source_m_value : sfr.promise.m_value = pointer_type.operand sfr.yields
  source_yields : sfr.yields = n
  source_resumes : sfr.resumes = n
  source_rest : emits src e sfr.vars rest

/-- The coroutine `fmap` with state `fr`, whose source coroutine has state
`sfr` at address `a` of the memory held by `fr`, can be resumed after `n`
resumptions since its creation: neither coroutine is finished, the loop
iterator is not yet created or refers to the source, `func` was called `n`
times, the source emitted `n` values and still has `rest` to emit. -/
structure fmap_ready {σ S U : Type} (src : σ → Outcome σ S) (e : Ending)
    (func : S → Option U) (a : Nat) (fr : Frame (fmap_vars σ S U) U) (sfr : Frame σ S)
    (n : Nat) (rest : List S) : Prop where
  point : fr.point ≠ SuspendPoint.final
  yields : fr.yields = n
  resumes : fr.resumes = n
  func : fr.vars.func = func
  source : fr.vars.source.m_coroutine = some a
  it : fr.vars.it = none ∨ fr.vars.it = some { m_coroutine := some a }
  invoked : fr.vars.invoked = n
  memory : Heap.frame fr.vars.memory a = some sfr
  source_point : sfr.point ≠ SuspendPoint.final
  source_yields : sfr.yields = n
  source_resumes : sfr.resumes = n
  source_rest : emits src e sfr.vars rest

end Lib

namespace Lib

/-! ## Memory -/

theorem frame_set_same {σ T : Type} (heap : Heap σ T) (a : Nat) (x : Option (Frame σ T))
    (h : a < heap.length) : Heap.frame (heap.set a x) a = x := by
  simp [Heap.frame, List.getElem?_set, h]

theorem frame_set_other {σ T : Type} (heap : Heap σ T) (a b : Nat) (x : Option (Frame σ T))
    (h : a ≠ b) : Heap.frame (heap.set a x) b = Heap.frame heap b := by
  simp [Heap.frame, List.getElem?_set, h]

theorem frame_lt_length {σ T : Type} {heap : Heap σ T} {a : Nat} {fr : Frame σ T}
    (h : Heap.frame heap a = some fr) : a < heap.length := by
  by_contra hc
  have : heap[a]? = none := List.getElem?_eq_none (Nat.le_of_not_lt hc)
  simp [Heap.frame, this] at h

theorem frame_append_length {σ T : Type} (heap : Heap σ T) (x : Option (Frame σ T)) :
    Heap.frame (heap ++ [x]) heap.length = x := by
  simp [Heap.frame]

theorem frame_append_old {σ T : Type} (heap : Heap σ T) (x : Option (Frame σ T)) (a : Nat)
    (h : a < heap.length) : Heap.frame (heap ++ [x]) a = Heap.frame heap a := by
  simp [Heap.frame, List.getElem?_append_left h]

/-! ## Single operations on a known coroutine state -/

theorem resume_co_yield {σ T : Type} (body : σ → Outcome σ T) {heap : Heap σ T} {a : Nat}
    {fr : Frame σ T} {v : T} {s : σ} (hf : Heap.frame heap a = some fr)
    (hp : fr.point ≠ SuspendPoint.final) (hb : body fr.vars = Outcome.co_yield v s) :
    coroutine_handle.resume body (some a) heap = Except.ok (heap.set a (some
      { point := SuspendPoint.yield, vars := s, operand := some v,
        promise := { m_value := pointer_type.operand (fr.yields + 1) },
        yields := fr.yields + 1, resumes := fr.resumes + 1 })) := by
  have hpt : fr.point = SuspendPoint.initial ∨ fr.point = SuspendPoint.yield := by
    cases h : fr.point <;> simp_all
  rcases hpt with h | h <;> simp [coroutine_handle.resume, hf, h, hb, promise_type.yield_value]

theorem resume_co_return {σ T : Type} (body : σ → Outcome σ T) {heap : Heap σ T} {a : Nat}
    {fr : Frame σ T} {s : σ} {kept : Option T} (hf : Heap.frame heap a = some fr)
    (hp : fr.point ≠ SuspendPoint.final) (hb : body fr.vars = Outcome.co_return s kept) :
    coroutine_handle.resume body (some a) heap = Except.ok (heap.set a (some
      { point := SuspendPoint.final, vars := s, operand := kept,
        promise := fr.promise, yields := fr.yields, resumes := fr.resumes + 1 })) := by
  have hpt : fr.point = SuspendPoint.initial ∨ fr.point = SuspendPoint.yield := by
    cases h : fr.point <;> simp_all
  rcases hpt with h | h <;> simp [coroutine_handle.resume, hf, h, hb, promise_type.return_void]

theorem resume_exception {σ T : Type} (body : σ → Outcome σ T) {heap : Heap σ T} {a : Nat}
    {fr : Frame σ T} {s : σ} {kept : Option T} (hf : Heap.frame heap a = some fr)
    (hp : fr.point ≠ SuspendPoint.final) (hb : body fr.vars = Outcome.exception s kept) :
    coroutine_handle.resume body (some a) heap = Except.ok (heap.set a (some
      { point := SuspendPoint.final, vars := s, operand := kept,
        promise := fr.promise, yields := fr.yields, resumes := fr.resumes + 1 })) := by
  have hpt : fr.point = SuspendPoint.initial ∨ fr.point = SuspendPoint.yield := by
    cases h : fr.point <;> simp_all
  rcases hpt with h | h <;> simp [coroutine_handle.resume, hf, h, hb, promise_type.unhandled_exception]

theorem resume_final {σ T : Type} (body : σ → Outcome σ T) {heap : Heap σ T} {a : Nat}
    {fr : Frame σ T} (hf : Heap.frame heap a = some fr)
    (hp : fr.point = SuspendPoint.final) :
    coroutine_handle.resume body (some a) heap = Except.error Fault.resume_at_final := by
  simp [coroutine_handle.resume, hf, hp]

theorem operator_eq_frame {σ T : Type} {heap : Heap σ T} {a : Nat} {fr : Frame σ T}
    (s : sentinel) (hf : Heap.frame heap a = some fr) :
    iterator.operator_eq { m_coroutine := some a } s heap =
      Except.ok (decide (fr.point = SuspendPoint.final)) := by
  simp [iterator.operator_eq, coroutine_handle.done, hf]

theorem operator_ne_frame {σ T : Type} {heap : Heap σ T} {a : Nat} {fr : Frame σ T}
    (s : sentinel) (hf : Heap.frame heap a = some fr) :
    iterator.operator_ne { m_coroutine := some a } s heap =
      Except.ok (!decide (fr.point = SuspendPoint.final)) := by
  simp [iterator.operator_ne, operator_eq_frame s hf]

theorem operator_deref_frame {σ T : Type} {heap : Heap σ T} {a : Nat} {fr : Frame σ T}
    (hf : Heap.frame heap a = some fr) :
    iterator.operator_deref { m_coroutine := some a } heap = fr.value := by
  simp [iterator.operator_deref, hf]

theorem value_at_yield {σ T : Type} {fr : Frame σ T} {v : T}
    (ho : fr.operand = some v) (hm : fr.promise.m_value = pointer_type.operand fr.yields) :
    fr.value = Except.ok v := by
  simp [Frame.value, ho, hm]

/-! ## The iteration loop -/

theorem iterate_final {σ T : Type} (body : σ → Outcome σ T) {heap : Heap σ T} {a : Nat}
    {fr : Frame σ T} (n : Nat) (hf : Heap.frame heap a = some fr)
    (hp : fr.point = SuspendPoint.final) :
    iterate body (n + 1) { m_coroutine := some a } heap =
      Except.ok (some { values := [], advances := 0, it := { m_coroutine := some a },
                        heap := heap }) := by
  simp [iterate, operator_ne_frame _ hf, hp]

theorem iterate_step {σ T : Type} (body : σ → Outcome σ T) {heap heap1 : Heap σ T} {a : Nat}
    {fr : Frame σ T} {v : T} (n : Nat) (hf : Heap.frame heap a = some fr)
    (hp : fr.point = SuspendPoint.yield) (hv : fr.value = Except.ok v)
    (hr : coroutine_handle.resume body (some a) heap = Except.ok heap1) :
    iterate body (n + 1) { m_coroutine := some a } heap =
      match iterate body n { m_coroutine := some a } heap1 with
      | Except.error f => Except.error f
      | Except.ok none => Except.ok none
      | Except.ok (some r) =>
        Except.ok (some { r with values := v :: r.values, advances := r.advances + 1 }) := by
  simp [iterate, operator_ne_frame _ hf, hp, operator_deref_frame hf, hv,
    iterator.operator_inc, hr]

theorem resume_finish {σ T : Type} (body : σ → Outcome σ T) (e : Ending) {heap : Heap σ T}
    {a : Nat} {fr : Frame σ T} (hf : Heap.frame heap a = some fr)
    (hp : fr.point ≠ SuspendPoint.final) (he : emits body e fr.vars []) :
    ∃ s1 kept, coroutine_handle.resume body (some a) heap = Except.ok (heap.set a (some
      { point := SuspendPoint.final, vars := s1, operand := kept,
        promise := fr.promise, yields := fr.yields, resumes := fr.resumes + 1 })) := by
  cases e with
  | returns =>
    obtain ⟨s1, kept, hb⟩ := he
    exact ⟨s1, kept, resume_co_return body hf hp hb⟩
  | throws =>
    obtain ⟨s1, kept, hb⟩ := he
    exact ⟨s1, kept, resume_exception body hf hp hb⟩

theorem iterate_emits {σ T : Type} (body : σ → Outcome σ T) (e : Ending) (a : Nat) :
    ∀ (vs : List T) (heap : Heap σ T) (fr : Frame σ T) (v : T) (fuel : Nat),
      Heap.frame heap a = some fr → fr.point = SuspendPoint.yield → fr.operand = some v →
      fr.promise.m_value = pointer_type.operand fr.yields → emits body e fr.vars vs →
      vs.length + 2 ≤ fuel →
      ∃ r fr1, iterate body fuel { m_coroutine := some a } heap = Except.ok (some r) ∧
        r.values = v :: vs ∧ r.advances = vs.length + 1 ∧
        r.it = { m_coroutine := some a } ∧
        Heap.frame r.heap a = some fr1 ∧ fr1.point = SuspendPoint.final ∧
        fr1.yields = fr.yields + vs.length ∧
        fr1.promise.m_value = pointer_type.operand (fr.yields + vs.length) ∧
        fr1.resumes = fr.resumes + vs.length + 1 ∧
        r.heap.length = heap.length ∧
        ∀ b, b ≠ a → Heap.frame r.heap b = Heap.frame heap b := by
  intro vs
  induction vs with
  | nil =>
    intro heap fr v fuel hf hp ho hm he hfuel
    obtain ⟨n, rfl⟩ : ∃ n, fuel = n + 1 + 1 := ⟨fuel - 2, by simp at hfuel; omega⟩
    have hlt := frame_lt_length hf
    have hne : fr.point ≠ SuspendPoint.final := by simp [hp]
    obtain ⟨s1, kept, hr⟩ := resume_finish body e hf hne he
    have hf1 := frame_set_same heap a (some
      { point := SuspendPoint.final, vars := s1, operand := kept,
        promise := fr.promise, yields := fr.yields, resumes := fr.resumes + 1 }) hlt
    refine ⟨{ values := [v], advances := 1, it := { m_coroutine := some a },
              heap := heap.set a (some
                { point := SuspendPoint.final, vars := s1, operand := kept,
                  promise := fr.promise, yields := fr.yields, resumes := fr.resumes + 1 }) },
            { point := SuspendPoint.final, vars := s1, operand := kept,
              promise := fr.promise, yields := fr.yields, resumes := fr.resumes + 1 }, ?_, ?_⟩
    · rw [iterate_step body (n + 1) hf hp (value_at_yield ho hm) hr,
        iterate_final body n hf1 rfl]
    · refine ⟨rfl, rfl, rfl, hf1, rfl, rfl, ?_, rfl, ?_, ?_⟩
      · simpa using hm
      · simp
      · intro b hb
        exact frame_set_other heap a b _ (Ne.symm hb)
  | cons w ws ih =>
    intro heap fr v fuel hf hp ho hm he hfuel
    obtain ⟨n, rfl⟩ : ∃ n, fuel = n + 1 := ⟨fuel - 1, by simp at hfuel; omega⟩
    have hlt := frame_lt_length hf
    have hne : fr.point ≠ SuspendPoint.final := by simp [hp]
    obtain ⟨s1, hb, hrest⟩ := he
    have hr := resume_co_yield body hf hne hb
    have hf1 := frame_set_same heap a (some
      { point := SuspendPoint.yield, vars := s1, operand := some w,
        promise := { m_value := pointer_type.operand (fr.yields + 1) },
        yields := fr.yields + 1, resumes := fr.resumes + 1 }) hlt
    obtain ⟨r, fr1, hit, hvals, hadv, hrit, hfr1, hpt, hy, hmv, hres, hlen, hoth⟩ :=
      ih _ _ w n hf1 rfl rfl rfl hrest (by simp at hfuel ⊢; omega)
    refine ⟨{ r with values := v :: r.values, advances := r.advances + 1 }, fr1, ?_, ?_⟩
    · rw [iterate_step body n hf hp (value_at_yield ho hm) hr, hit]
    · refine ⟨by simp [hvals], by simp [hadv], hrit, hfr1, hpt, ?_, ?_, ?_, ?_, ?_⟩
      · simp [hy]; omega
      · rw [hmv]; simp; omega
      · simp [hres]; omega
      · simpa using hlen
      · intro b hb
        exact (hoth b hb).trans (frame_set_other heap a b _ (Ne.symm hb))

theorem begin_handle {σ T : Type} (body : σ → Outcome σ T) {heap heap1 : Heap σ T} {a : Nat}
    (hr : coroutine_handle.resume body (some a) heap = Except.ok heap1) :
    generator.begin body { m_coroutine := some a } heap =
      Except.ok ({ m_coroutine := some a }, heap1) := by
  simp [generator.begin, hr, iterator.ctor]

theorem range_for_emits {σ T : Type} (body : σ → Outcome σ T) (e : Ending) (a : Nat)
    (vs : List T) (heap : Heap σ T) (fr : Frame σ T) (fuel : Nat)
    (hf : Heap.frame heap a = some fr) (hp : fr.point ≠ SuspendPoint.final)
    (he : emits body e fr.vars vs) (hfuel : vs.length + 1 ≤ fuel) :
    ∃ r fr1, range_for body fuel { m_coroutine := some a } heap = Except.ok (some r) ∧
      r.values = vs ∧ r.advances = vs.length ∧ r.it = { m_coroutine := some a } ∧
      Heap.frame r.heap a = some fr1 ∧ fr1.point = SuspendPoint.final ∧
      fr1.yields = fr.yields + vs.length ∧
      fr1.promise.m_value =
        (if vs.length = 0 then fr.promise.m_value
          else pointer_type.operand (fr.yields + vs.length)) ∧
      fr1.resumes = fr.resumes + vs.length + 1 ∧
      r.heap.length = heap.length ∧
      ∀ b, b ≠ a → Heap.frame r.heap b = Heap.frame heap b := by
  have hlt := frame_lt_length hf
  cases vs with
  | nil =>
    obtain ⟨n, rfl⟩ : ∃ n, fuel = n + 1 := ⟨fuel - 1, by simp at hfuel; omega⟩
    obtain ⟨s1, kept, hr⟩ := resume_finish body e hf hp he
    have hf1 := frame_set_same heap a (some
      { point := SuspendPoint.final, vars := s1, operand := kept,
        promise := fr.promise, yields := fr.yields, resumes := fr.resumes + 1 }) hlt
    refine ⟨{ values := [], advances := 0, it := { m_coroutine := some a },
              heap := heap.set a (some
                { point := SuspendPoint.final, vars := s1, operand := kept,
                  promise := fr.promise, yields := fr.yields, resumes := fr.resumes + 1 }) },
            { point := SuspendPoint.final, vars := s1, operand := kept,
              promise := fr.promise, yields := fr.yields, resumes := fr.resumes + 1 }, ?_, ?_⟩
    · simp only [range_for, begin_handle body hr]
      exact iterate_final body n hf1 rfl
    · refine ⟨rfl, rfl, rfl, hf1, rfl, rfl, by simp, rfl, by simp, ?_⟩
      intro b hb
      exact frame_set_other heap a b _ (Ne.symm hb)
  | cons w ws =>
    obtain ⟨s1, hb, hrest⟩ := he
    have hr := resume_co_yield body hf hp hb
    have hf1 := frame_set_same heap a (some
      { point := SuspendPoint.yield, vars := s1, operand := some w,
        promise := { m_value := pointer_type.operand (fr.yields + 1) },
        yields := fr.yields + 1, resumes := fr.resumes + 1 }) hlt
    obtain ⟨r, fr1, hit, hvals, hadv, hrit, hfr1, hpt, hy, hmv, hres, hlen, hoth⟩ :=
      iterate_emits body e a ws _ _ w fuel hf1 rfl rfl rfl hrest (by simp at hfuel ⊢; omega)
    dsimp only at hy hmv hres hlen
    refine ⟨r, fr1, ?_, hvals, by simp [hadv], hrit, hfr1, hpt, ?_, ?_, ?_, ?_, ?_⟩
    · simp only [range_for, begin_handle body hr]
      exact hit
    · simp [hy]; omega
    · rw [hmv]; simp; omega
    · simp [hres]; omega
    · simpa using hlen
    · intro b hb
      exact (hoth b hb).trans (frame_set_other heap a b _ (Ne.symm hb))

theorem invoke_frame {σ T : Type} (args : σ) (heap : Heap σ T) :
    (invoke args heap).1 = { m_coroutine := some heap.length } ∧
    Heap.frame (invoke args heap).2 heap.length = some
      { point := SuspendPoint.initial, vars := args, operand := none,
        promise := promise_type.default, yields := 0, resumes := 0 } := by
  exact ⟨rfl, frame_append_length heap _⟩

/-! ## The coroutine fmap -/

theorem fmap_body_resumed {σ S U : Type} (src : σ → Outcome σ S) (v : fmap_vars σ S U)
    {a : Nat} {mem1 : Heap σ S} {fr1 : Frame σ S}
    (hs : v.source.m_coroutine = some a)
    (hit : v.it = none ∨ v.it = some { m_coroutine := some a })
    (hr : coroutine_handle.resume src (some a) v.memory = Except.ok mem1)
    (hf1 : Heap.frame mem1 a = some fr1) :
    fmap_body src v =
      if fr1.point = SuspendPoint.final then
        Outcome.co_return { v with memory := mem1, it := none } none
      else
        match fr1.value with
        | Except.error f => Outcome.undefined f
        | Except.ok value =>
          match v.func value with
          | none =>
            Outcome.exception { v with memory := mem1, it := none, invoked := v.invoked + 1 }
              none
          | some r =>
            Outcome.co_yield r { v with memory := mem1, it := some { m_coroutine := some a },
                                        invoked := v.invoked + 1 } := by
  have hstep : (match v.it with
      | none => v.source.begin src v.memory
      | some b => b.operator_inc src v.memory) =
      Except.ok (({ m_coroutine := some a } : iterator), mem1) := by
    rcases hit with h | h
    · simp [h, generator.begin, hs, hr, iterator.ctor]
    · simp [h, iterator.operator_inc, hr]
  unfold fmap_body
  simp only [hstep, operator_ne_frame _ hf1, operator_deref_frame hf1]
  by_cases hp : fr1.point = SuspendPoint.final
  · simp [hp]
  · simp [hp]

theorem fmap_emits {σ S U : Type} (src : σ → Outcome σ S) (f : S → U) (e : Ending) (a : Nat) :
    ∀ (vs : List S) (v : fmap_vars σ S U) (fr : Frame σ S),
      v.func = (fun x => some (f x)) → v.source.m_coroutine = some a →
      (v.it = none ∨ v.it = some { m_coroutine := some a }) →
      Heap.frame v.memory a = some fr → fr.point ≠ SuspendPoint.final →
      emits src e fr.vars vs →
      emits (fmap_body src) Ending.returns v (vs.map f) := by
  intro vs
  induction vs with
  | nil =>
    intro v fr hfun hs hit hf hp he
    have hlt := frame_lt_length hf
    obtain ⟨s1, kept, hr⟩ := resume_finish src e hf hp he
    have hf1 := frame_set_same v.memory a (some
      { point := SuspendPoint.final, vars := s1, operand := kept,
        promise := fr.promise, yields := fr.yields, resumes := fr.resumes + 1 }) hlt
    refine ⟨{ func := v.func, source := v.source,
              memory := v.memory.set a (some
                { point := SuspendPoint.final, vars := s1, operand := kept,
                  promise := fr.promise, yields := fr.yields, resumes := fr.resumes + 1 }),
              it := none, invoked := v.invoked }, ?_⟩
    rw [fmap_body_resumed src v hs hit hr hf1]
    simp
  | cons w ws ih =>
    intro v fr hfun hs hit hf hp he
    have hlt := frame_lt_length hf
    obtain ⟨s1, hb, hrest⟩ := he
    have hr := resume_co_yield src hf hp hb
    have hf1 := frame_set_same v.memory a (some
      { point := SuspendPoint.yield, vars := s1, operand := some w,
        promise := { m_value := pointer_type.operand (fr.yields + 1) },
        yields := fr.yields + 1, resumes := fr.resumes + 1 }) hlt
    refine ⟨{ func := v.func, source := v.source,
              memory := v.memory.set a (some
                { point := SuspendPoint.yield, vars := s1, operand := some w,
                  promise := { m_value := pointer_type.operand (fr.yields + 1) },
                  yields := fr.yields + 1, resumes := fr.resumes + 1 }),
              it := some { m_coroutine := some a }, invoked := v.invoked + 1 }, ?_, ?_⟩
    · rw [fmap_body_resumed src v hs hit hr hf1]
      simp [Frame.value, hfun]
    · exact ih _ _ hfun hs (Or.inr rfl) hf1 (by simp) hrest

theorem fmap_frame {σ S U : Type} (func : S → Option U) (source : generator)
    (memory : Heap σ S) (heap : Heap (fmap_vars σ S U) U) :
    (fmap func source memory heap).1 = { m_coroutine := some heap.length } ∧
    Heap.frame (fmap func source memory heap).2 heap.length = some
      { point := SuspendPoint.initial,
        vars := { func := func, source := source, memory := memory, it := none, invoked := 0 },
        operand := none, promise := promise_type.default, yields := 0, resumes := 0 } := by
  exact ⟨rfl, frame_append_length heap _⟩

theorem fmap_invoke_emits {σ S U : Type} (src : σ → Outcome σ S) (f : S → U) (e : Ending)
    (args : σ) (vs : List S) (mem : Heap σ S) (he : emits src e args vs) :
    emits (fmap_body src) Ending.returns
      ({ func := fun x => some (f x), source := (invoke args mem).1,
         memory := (invoke args mem).2, it := none, invoked := 0 } : fmap_vars σ S U)
      (vs.map f) := by
  obtain ⟨hg, hf⟩ := invoke_frame args mem
  exact fmap_emits src f e mem.length vs _ _ rfl (by rw [hg]) (Or.inl rfl) hf (by simp) he

/-! ## The storage-slot invariant -/

theorem slot_inv_set {σ T : Type} {heap : Heap σ T} (a : Nat) {fr1 : Frame σ T}
    (hinv : Heap.slot_inv heap) (h1 : fr1.slot_inv) :
    Heap.slot_inv (heap.set a (some fr1)) := by
  intro b fr2 hb
  by_cases hab : a = b
  · subst hab
    simp only [Heap.frame, List.getElem?_set] at hb
    by_cases hlt : a < heap.length
    · simp [hlt] at hb
      rw [← hb]
      exact h1
    · simp [hlt] at hb
  · rw [frame_set_other heap a b _ hab] at hb
    exact hinv b fr2 hb

theorem resume_slot_inv {σ T : Type} (body : σ → Outcome σ T) (h : coroutine_handle)
    {heap heap1 : Heap σ T} (hinv : Heap.slot_inv heap)
    (hr : coroutine_handle.resume body h heap = Except.ok heap1) :
    Heap.slot_inv heap1 := by
  cases h with
  | none => simp [coroutine_handle.resume] at hr
  | some a =>
    cases hf : Heap.frame heap a with
    | none => simp [coroutine_handle.resume, hf] at hr
    | some fr =>
      have hfr := hinv a fr hf
      by_cases hp : fr.point = SuspendPoint.final
      · rw [resume_final body hf hp] at hr
        cases hr
      · cases hb : body fr.vars with
        | co_yield v s1 =>
          rw [resume_co_yield body hf hp hb] at hr
          cases hr
          exact slot_inv_set a hinv (by simp [Frame.slot_inv])
        | co_return s1 =>
          rw [resume_co_return body hf hp hb] at hr
          cases hr
          refine slot_inv_set a hinv ?_
          cases hpt : fr.point with
          | final => exact absurd hpt hp
          | initial =>
            simp only [Frame.slot_inv, hpt] at hfr
            simp [Frame.slot_inv, hfr.1, hfr.2.2]
          | yield =>
            simp only [Frame.slot_inv, hpt] at hfr
            have : fr.yields ≠ 0 := by omega
            simp [Frame.slot_inv, hfr.1, this]
        | exception s1 =>
          rw [resume_exception body hf hp hb] at hr
          cases hr
          refine slot_inv_set a hinv ?_
          cases hpt : fr.point with
          | final => exact absurd hpt hp
          | initial =>
            simp only [Frame.slot_inv, hpt] at hfr
            simp [Frame.slot_inv, hfr.1, hfr.2.2]
          | yield =>
            simp only [Frame.slot_inv, hpt] at hfr
            have : fr.yields ≠ 0 := by omega
            simp [Frame.slot_inv, hfr.1, this]
        | undefined f =>
          have hpt : fr.point = SuspendPoint.initial ∨ fr.point = SuspendPoint.yield := by
            cases h : fr.point <;> simp_all
          rcases hpt with h | h <;> simp [coroutine_handle.resume, hf, h, hb] at hr

theorem invoke_slot_inv {σ T : Type} (args : σ) {heap : Heap σ T}
    (hinv : Heap.slot_inv heap) : Heap.slot_inv (invoke args heap).2 := by
  intro b fr hb
  by_cases hlt : b < heap.length
  · rw [show (invoke args heap).2 = heap ++ [_] from rfl, frame_append_old heap _ b hlt] at hb
    exact hinv b fr hb
  · by_cases heq : b = heap.length
    · subst heq
      rw [(invoke_frame args heap).2] at hb
      cases hb
      simp [Frame.slot_inv, promise_type.default]
    · have hlen := frame_lt_length hb
      simp [invoke] at hlen
      omega

theorem begin_slot_inv {σ T : Type} (body : σ → Outcome σ T) (g : generator)
    {heap heap1 : Heap σ T} {it1 : iterator} (hinv : Heap.slot_inv heap)
    (hr : g.begin body heap = Except.ok (it1, heap1)) : Heap.slot_inv heap1 := by
  unfold generator.begin at hr
  cases hg : g.m_coroutine with
  | none =>
    simp [hg] at hr
    rw [← hr.2]
    exact hinv
  | some a =>
    simp only [hg] at hr
    cases hres : coroutine_handle.resume body (some a) heap with
    | error f => simp [hres] at hr
    | ok h1 =>
      simp [hres] at hr
      rw [← hr.2]
      exact resume_slot_inv body (some a) hinv hres

theorem operator_inc_slot_inv {σ T : Type} (body : σ → Outcome σ T) (it : iterator)
    {heap heap1 : Heap σ T} {it1 : iterator} (hinv : Heap.slot_inv heap)
    (hr : it.operator_inc body heap = Except.ok (it1, heap1)) : Heap.slot_inv heap1 := by
  unfold iterator.operator_inc at hr
  cases hres : coroutine_handle.resume body it.m_coroutine heap with
  | error f => simp [hres] at hr
  | ok h1 =>
    simp [hres] at hr
    rw [← hr.2]
    exact resume_slot_inv body it.m_coroutine hinv hres

theorem slot_inv_value_final {σ T : Type} {fr : Frame σ T} (hinv : fr.slot_inv)
    (hp : fr.point = SuspendPoint.final) :
    fr.value =
      (if fr.yields = 0 then Except.error Fault.indeterminate_pointer
       else match fr.operand with
         | none => Except.error Fault.dangling_pointer
         | some v => Except.ok v) := by
  simp only [Frame.slot_inv, hp] at hinv
  by_cases hy : fr.yields = 0
  · simp [Frame.value, hinv, hy]
  · cases ho : fr.operand with
    | none => simp [Frame.value, hinv, hy, ho]
    | some v => simp [Frame.value, hinv, hy, ho]

theorem slot_inv_value_yield {σ T : Type} {fr : Frame σ T} (hinv : fr.slot_inv)
    (hp : fr.point = SuspendPoint.yield) :
    ∃ v, fr.operand = some v ∧ fr.value = Except.ok v := by
  simp only [Frame.slot_inv, hp] at hinv
  obtain ⟨hm, ho, -⟩ := hinv
  obtain ⟨v, hv⟩ := Option.isSome_iff_exists.mp ho
  exact ⟨v, hv, value_at_yield hv hm⟩

theorem slot_inv_value_initial {σ T : Type} {fr : Frame σ T} (hinv : fr.slot_inv)
    (hp : fr.point = SuspendPoint.initial) :
    fr.value = Except.error Fault.indeterminate_pointer := by
  simp only [Frame.slot_inv, hp] at hinv
  simp [Frame.value, hinv.1]

theorem slot_inv_m_value {σ T : Type} {fr : Frame σ T} (hinv : fr.slot_inv) :
    fr.promise.m_value = pointer_type.indeterminate ↔ fr.yields = 0 := by
  cases hp : fr.point with
  | initial =>
    simp only [Frame.slot_inv, hp] at hinv
    simp [hinv.1, hinv.2.2]
  | yield =>
    simp only [Frame.slot_inv, hp] at hinv
    obtain ⟨hm, -, hy⟩ := hinv
    have : fr.yields ≠ 0 := by omega
    simp [hm, this]
  | final =>
    simp only [Frame.slot_inv, hp] at hinv
    by_cases hy : fr.yields = 0
    · simp [hinv, hy]
    · simp [hinv, hy]

theorem slot_inv_nil {σ T : Type} : Heap.slot_inv ([] : Heap σ T) := by
  intro a fr h
  simp [Heap.frame] at h

theorem iterate_slot_inv {σ T : Type} (body : σ → Outcome σ T) :
    ∀ (fuel : Nat) (it : iterator) (heap : Heap σ T) (r : Iteration σ T),
      Heap.slot_inv heap → iterate body fuel it heap = Except.ok (some r) →
      Heap.slot_inv r.heap := by
  intro fuel
  induction fuel with
  | zero =>
    intro it heap r _ h
    simp [iterate] at h
  | succ fuel ih =>
    intro it heap r hinv h
    rw [iterate] at h
    cases hne : it.operator_ne ({} : sentinel) heap with
    | error f => simp [hne] at h
    | ok b =>
      cases b with
      | false =>
        simp [hne] at h
        subst h
        exact hinv
      | true =>
        simp only [hne] at h
        cases hd : (it.operator_deref heap : Except Fault T) with
        | error f => simp [hd] at h
        | ok v =>
          simp only [hd] at h
          cases hi : it.operator_inc body heap with
          | error f => simp [hi] at h
          | ok p =>
            obtain ⟨it1, heap1⟩ := p
            simp only [hi] at h
            cases hrec : iterate body fuel it1 heap1 with
            | error f => simp [hrec] at h
            | ok o =>
              cases o with
              | none => simp [hrec] at h
              | some r1 =>
                simp [hrec] at h
                subst h
                exact ih it1 heap1 r1 (operator_inc_slot_inv body it hinv hi) hrec

theorem range_for_slot_inv {σ T : Type} (body : σ → Outcome σ T) (fuel : Nat)
    (g : generator) (heap : Heap σ T) (r : Iteration σ T) (hinv : Heap.slot_inv heap)
    (h : range_for body fuel g heap = Except.ok (some r)) : Heap.slot_inv r.heap := by
  unfold range_for at h
  cases hb : g.begin body heap with
  | error f => simp [hb] at h
  | ok p =>
    obtain ⟨it, heap1⟩ := p
    simp only [hb] at h
    exact iterate_slot_inv body fuel it heap1 r (begin_slot_inv body g hinv hb) h

theorem frame_value_ne_invalid {σ T : Type} (fr : Frame σ T) :
    fr.value ≠ Except.error Fault.InvalidState := by
  unfold Frame.value
  split
  · simp
  · split
    · simp
    · split <;> simp

theorem operator_deref_ne_invalid {σ T : Type} (it : iterator) (heap : Heap σ T) :
    (it.operator_deref heap : Except Fault T) ≠ Except.error Fault.InvalidState := by
  unfold iterator.operator_deref
  split
  · simp
  · split
    · simp
    · exact frame_value_ne_invalid _

theorem Range12_exhausted_slot_inv : Heap.slot_inv Test.Range12_exhausted := by
  intro a fr h
  cases a with
  | zero =>
    simp [Heap.frame, Test.Range12_exhausted] at h
    subst h
    simp [Frame.slot_inv]
  | succ n => simp [Heap.frame, Test.Range12_exhausted] at h

/-! ## Sequences of advances -/

theorem inc_handle {σ T : Type} (body : σ → Outcome σ T) {heap heap1 : Heap σ T} {a : Nat}
    (hr : coroutine_handle.resume body (some a) heap = Except.ok heap1) :
    iterator.operator_inc body { m_coroutine := some a } heap =
      Except.ok ({ m_coroutine := some a }, heap1) := by
  simp [iterator.operator_inc, hr]

theorem begin_eq_inc {σ T : Type} (body : σ → Outcome σ T) (a : Nat) (heap : Heap σ T) :
    generator.begin body { m_coroutine := some a } heap =
      iterator.operator_inc body { m_coroutine := some a } heap := by
  simp only [generator.begin, iterator.operator_inc, iterator.ctor]

theorem advance_succ {σ T : Type} (body : σ → Outcome σ T) :
    ∀ (k : Nat) (it : iterator) (heap : Heap σ T),
      advance body (k + 1) it heap =
        match advance body k it heap with
        | Except.error f => Except.error f
        | Except.ok (it1, heap1) => it1.operator_inc body heap1 := by
  intro k
  induction k with
  | zero =>
    intro it heap
    simp only [advance]
    cases it.operator_inc body heap with
    | error f => rfl
    | ok p => rfl
  | succ k ih =>
    intro it heap
    rw [advance]
    cases h : it.operator_inc body heap with
    | error f => simp [advance, h]
    | ok p =>
      obtain ⟨it1, heap1⟩ := p
      simp only [ih it1 heap1]
      conv_rhs => rw [advance]
      simp only [h]

theorem begin_advance_zero {σ T : Type} (body : σ → Outcome σ T) (g : generator)
    (heap : Heap σ T) : begin_advance body 0 g heap = g.begin body heap := by
  unfold begin_advance
  cases g.begin body heap with
  | error f => rfl
  | ok p => rfl

theorem begin_advance_succ {σ T : Type} (body : σ → Outcome σ T) (k : Nat) (g : generator)
    (heap : Heap σ T) :
    begin_advance body (k + 1) g heap =
      match begin_advance body k g heap with
      | Except.error f => Except.error f
      | Except.ok (it1, heap1) => it1.operator_inc body heap1 := by
  unfold begin_advance
  cases g.begin body heap with
  | error f => rfl
  | ok p =>
    obtain ⟨it, heap1⟩ := p
    exact advance_succ body k it heap1

theorem getElem?_drop_cons {α : Type} {vs : List α} {k : Nat} {w : α}
    (h : vs[k]? = some w) : vs.drop k = w :: vs.drop (k + 1) := by
  obtain ⟨hlt, hw⟩ := List.getElem?_eq_some.mp h
  rw [List.drop_eq_getElem_cons hlt, hw]

theorem begin_advance_emits {σ T : Type} (body : σ → Outcome σ T) (e : Ending) (a : Nat)
    (vs : List T) (heap : Heap σ T) (fr : Frame σ T)
    (hf : Heap.frame heap a = some fr) (hp : fr.point ≠ SuspendPoint.final)
    (he : emits body e fr.vars vs) :
    ∀ (k : Nat) (w : T), vs[k]? = some w →
      ∃ heap1 fr1, begin_advance body k { m_coroutine := some a } heap
          = Except.ok ({ m_coroutine := some a }, heap1) ∧
        Heap.frame heap1 a = some fr1 ∧ fr1.point = SuspendPoint.yield ∧
        fr1.operand = some w ∧ fr1.promise.m_value = pointer_type.operand fr1.yields ∧
        fr1.yields = fr.yields + k + 1 ∧ fr1.resumes = fr.resumes + k + 1 ∧
        emits body e fr1.vars (vs.drop (k + 1)) := by
  intro k
  induction k with
  | zero =>
    intro w hw
    have hd := getElem?_drop_cons hw
    rw [List.drop_zero] at hd
    rw [hd] at he
    obtain ⟨s1, hb, hrest⟩ := he
    have hr := resume_co_yield body hf hp hb
    refine ⟨_, { point := SuspendPoint.yield, vars := s1, operand := some w,
                 promise := { m_value := pointer_type.operand (fr.yields + 1) },
                 yields := fr.yields + 1, resumes := fr.resumes + 1 },
      ?_, frame_set_same heap a _ (frame_lt_length hf), rfl, rfl, rfl, rfl, rfl, ?_⟩
    · rw [begin_advance_zero]
      exact begin_handle body hr
    · rw [hd]
      exact hrest
  | succ k ih =>
    intro w hw
    have hlt : k + 1 < vs.length := (List.getElem?_eq_some.mp hw).1
    obtain ⟨heap1, fr1, hrun, hf1, hp1, -, -, hy1, hr1, he1⟩ :=
      ih vs[k] (List.getElem?_eq_getElem (by omega))
    rw [getElem?_drop_cons hw] at he1
    obtain ⟨s1, hb, hrest⟩ := he1
    have hr := resume_co_yield body hf1 (by simp [hp1]) hb
    refine ⟨_, { point := SuspendPoint.yield, vars := s1, operand := some w,
                 promise := { m_value := pointer_type.operand (fr1.yields + 1) },
                 yields := fr1.yields + 1, resumes := fr1.resumes + 1 },
      ?_, frame_set_same heap1 a _ (frame_lt_length hf1), rfl, rfl, rfl, ?_, ?_, hrest⟩
    · rw [begin_advance_succ, hrun]
      exact inc_handle body hr
    · simp only [hy1]; omega
    · simp only [hr1]; omega

theorem begin_advance_eq_advance {σ T : Type} (body : σ → Outcome σ T) (k a : Nat)
    (heap : Heap σ T) :
    begin_advance body k { m_coroutine := some a } heap =
      advance body (k + 1) { m_coroutine := some a } heap := by
  rw [begin_advance, begin_eq_inc, advance]

theorem iterate_advance {σ T : Type} (body : σ → Outcome σ T) :
    ∀ (fuel : Nat) (it : iterator) (heap : Heap σ T) (r : Iteration σ T),
      iterate body fuel it heap = Except.ok (some r) →
      advance body r.advances it heap = Except.ok (r.it, r.heap) := by
  intro fuel
  induction fuel with
  | zero =>
    intro it heap r h
    simp [iterate] at h
  | succ fuel ih =>
    intro it heap r h
    rw [iterate] at h
    cases hne : it.operator_ne ({} : sentinel) heap with
    | error f => simp [hne] at h
    | ok b =>
      cases b with
      | false =>
        simp [hne] at h
        subst h
        rfl
      | true =>
        simp only [hne] at h
        cases hd : (it.operator_deref heap : Except Fault T) with
        | error f => simp [hd] at h
        | ok v =>
          simp only [hd] at h
          cases hi : it.operator_inc body heap with
          | error f => simp [hi] at h
          | ok p =>
            obtain ⟨it1, heap1⟩ := p
            simp only [hi] at h
            cases hrec : iterate body fuel it1 heap1 with
            | error f => simp [hrec] at h
            | ok o =>
              cases o with
              | none => simp [hrec] at h
              | some r1 =>
                simp [hrec] at h
                subst h
                have := ih it1 heap1 r1 hrec
                simp only [advance, hi]
                exact this

theorem range_for_begin_advance {σ T : Type} (body : σ → Outcome σ T) (fuel : Nat)
    (g : generator) (heap : Heap σ T) (r : Iteration σ T)
    (h : range_for body fuel g heap = Except.ok (some r)) :
    begin_advance body r.advances g heap = Except.ok (r.it, r.heap) := by
  unfold range_for at h
  unfold begin_advance
  cases hb : g.begin body heap with
  | error f => simp [hb] at h
  | ok p =>
    obtain ⟨it, heap1⟩ := p
    simp only [hb] at h
    exact iterate_advance body fuel it heap1 r h

/-! ## Single resumptions of the coroutine fmap -/

theorem fmap_at_yield_ready {σ S U : Type} {src : σ → Outcome σ S} {e : Ending}
    {func : S → Option U} {a : Nat} {fr : Frame (fmap_vars σ S U) U} {sfr : Frame σ S}
    {w : S} {u : U} {n : Nat} {rest : List S}
    (h : fmap_at_yield src e func a fr sfr w u n rest) :
    fmap_ready src e func a fr sfr n rest where
  point := by simp [h.point]
  yields := h.yields
  resumes := h.resumes
  func := h.func
  source := h.source
  it := Or.inr h.it
  invoked := h.invoked
  memory := h.memory
  source_point := by simp [h.source_point]
  source_yields := h.source_yields
  source_resumes := h.source_resumes
  source_rest := h.source_rest

theorem fmap_step_yield {σ S U : Type} (src : σ → Outcome σ S) (e : Ending)
    (func : S → Option U) (a b : Nat) (heap : Heap (fmap_vars σ S U) U)
    (fr : Frame (fmap_vars σ S U) U) (sfr : Frame σ S) (n : Nat) (w : S) (rest : List S)
    (u : U) (hf : Heap.frame heap b = some fr)
    (hr : fmap_ready src e func a fr sfr n (w :: rest)) (hu : func w = some u) :
    ∃ heap1 fr1 sfr1,
      coroutine_handle.resume (fmap_body src) (some b) heap = Except.ok heap1 ∧
      Heap.frame heap1 b = some fr1 ∧
      fmap_at_yield src e func a fr1 sfr1 w u (n + 1) rest := by
  obtain ⟨s1, hb, hrest⟩ := hr.source_rest
  have hres := resume_co_yield src hr.memory hr.source_point hb
  have hfs := frame_set_same fr.vars.memory a (some
    { point := SuspendPoint.yield, vars := s1, operand := some w,
      promise := { m_value := pointer_type.operand (sfr.yields + 1) },
      yields := sfr.yields + 1, resumes := sfr.resumes + 1 }) (frame_lt_length hr.memory)
  have hfw : fr.vars.func w = some u := by rw [hr.func]; exact hu
  have hbody : fmap_body src fr.vars = Outcome.co_yield u
      { func := fr.vars.func, source := fr.vars.source,
        memory := fr.vars.memory.set a (some
          { point := SuspendPoint.yield, vars := s1, operand := some w,
            promise := { m_value := pointer_type.operand (sfr.yields + 1) },
            yields := sfr.yields + 1, resumes := sfr.resumes + 1 }),
        it := some { m_coroutine := some a }, invoked := fr.vars.invoked + 1 } := by
    rw [fmap_body_resumed src fr.vars hr.source hr.it hres hfs]
    simp [Frame.value, hfw]
  have hrun := resume_co_yield (fmap_body src) hf hr.point hbody
  refine ⟨_, _,
    { point := SuspendPoint.yield, vars := s1, operand := some w,
      promise := { m_value := pointer_type.operand (sfr.yields + 1) },
      yields := sfr.yields + 1, resumes := sfr.resumes + 1 },
    hrun, frame_set_same heap b _ (frame_lt_length hf), ?_⟩
  exact
    { point := rfl
      operand := rfl
      m_value := rfl
      yields := by simp [hr.yields]
      resumes := by simp [hr.resumes]
      func := hr.func
      source := hr.source
      it := rfl
      invoked := by simp [hr.invoked]
      memory := hfs
      source_point := rfl
      source_operand := rfl
      source_m_value := rfl
      source_yields := by simp [hr.source_yields]
      source_resumes := by simp [hr.source_resumes]
      source_rest := hrest }

theorem fmap_step_fault {σ S U : Type} (src : σ → Outcome σ S) (e : Ending)
    (func : S → Option U) (a b : Nat) (heap : Heap (fmap_vars σ S U) U)
    (fr : Frame (fmap_vars σ S U) U) (sfr : Frame σ S) (n : Nat) (w : S) (rest : List S)
    (hf : Heap.frame heap b = some fr)
    (hr : fmap_ready src e func a fr sfr n (w :: rest)) (hu : func w = none) :
    ∃ heap1 fr1 sfr1,
      coroutine_handle.resume (fmap_body src) (some b) heap = Except.ok heap1 ∧
      Heap.frame heap1 b = some fr1 ∧
      fr1.point = SuspendPoint.final ∧ fr1.operand = none ∧ fr1.yields = n ∧
      fr1.resumes = n + 1 ∧ fr1.vars.invoked = n + 1 ∧ fr1.vars.it = none ∧
      fr1.vars.source.m_coroutine = some a ∧
      Heap.frame fr1.vars.memory a = some sfr1 ∧
      sfr1.point = SuspendPoint.yield ∧ sfr1.operand = some w ∧
      sfr1.yields = n + 1 ∧ sfr1.resumes = n + 1 ∧ emits src e sfr1.vars rest := by
  obtain ⟨s1, hb, hrest⟩ := hr.source_rest
  have hres := resume_co_yield src hr.memory hr.source_point hb
  have hfs := frame_set_same fr.vars.memory a (some
    { point := SuspendPoint.yield, vars := s1, operand := some w,
      promise := { m_value := pointer_type.operand (sfr.yields + 1) },
      yields := sfr.yields + 1, resumes := sfr.resumes + 1 }) (frame_lt_length hr.memory)
  have hfw : fr.vars.func w = none := by rw [hr.func]; exact hu
  have hbody : fmap_body src fr.vars = Outcome.exception
      { func := fr.vars.func, source := fr.vars.source,
        memory := fr.vars.memory.set a (some
          { point := SuspendPoint.yield, vars := s1, operand := some w,
            promise := { m_value := pointer_type.operand (sfr.yields + 1) },
            yields := sfr.yields + 1, resumes := sfr.resumes + 1 }),
        it := none, invoked := fr.vars.invoked + 1 } none := by
    rw [fmap_body_resumed src fr.vars hr.source hr.it hres hfs]
    simp [Frame.value, hfw]
  have hrun := resume_exception (fmap_body src) hf hr.point hbody
  refine ⟨_, _,
    { point := SuspendPoint.yield, vars := s1, operand := some w,
      promise := { m_value := pointer_type.operand (sfr.yields + 1) },
      yields := sfr.yields + 1, resumes := sfr.resumes + 1 },
    hrun, frame_set_same heap b _ (frame_lt_length hf), rfl, rfl, hr.yields,
    by simp [hr.resumes], by simp [hr.invoked], rfl, hr.source, hfs, rfl, rfl,
    by simp [hr.source_yields], by simp [hr.source_resumes], hrest⟩

theorem fmap_step_end {σ S U : Type} (src : σ → Outcome σ S) (e : Ending)
    (func : S → Option U) (a b : Nat) (heap : Heap (fmap_vars σ S U) U)
    (fr : Frame (fmap_vars σ S U) U) (sfr : Frame σ S) (n : Nat)
    (hf : Heap.frame heap b = some fr)
    (hr : fmap_ready src e func a fr sfr n []) :
    ∃ heap1 fr1 sfr1,
      coroutine_handle.resume (fmap_body src) (some b) heap = Except.ok heap1 ∧
      Heap.frame heap1 b = some fr1 ∧
      fr1.point = SuspendPoint.final ∧ fr1.operand = none ∧ fr1.yields = n ∧
      fr1.resumes = n + 1 ∧ fr1.vars.invoked = n ∧ fr1.vars.it = none ∧
      fr1.vars.source.m_coroutine = some a ∧
      Heap.frame fr1.vars.memory a = some sfr1 ∧
      sfr1.point = SuspendPoint.final ∧ sfr1.yields = n ∧ sfr1.resumes = n + 1 := by
  obtain ⟨s1, kept, hres⟩ := resume_finish src e hr.memory hr.source_point hr.source_rest
  have hfs := frame_set_same fr.vars.memory a (some
    { point := SuspendPoint.final, vars := s1, operand := kept,
      promise := sfr.promise, yields := sfr.yields, resumes := sfr.resumes + 1 })
    (frame_lt_length hr.memory)
  have hbody : fmap_body src fr.vars = Outcome.co_return
      { func := fr.vars.func, source := fr.vars.source,
        memory := fr.vars.memory.set a (some
          { point := SuspendPoint.final, vars := s1, operand := kept,
            promise := sfr.promise, yields := sfr.yields, resumes := sfr.resumes + 1 }),
        it := none, invoked := fr.vars.invoked } none := by
    rw [fmap_body_resumed src fr.vars hr.source hr.it hres hfs]
    simp
  have hrun := resume_co_return (fmap_body src) hf hr.point hbody
  refine ⟨_, _,
    { point := SuspendPoint.final, vars := s1, operand := kept,
      promise := sfr.promise, yields := sfr.yields, resumes := sfr.resumes + 1 },
    hrun, frame_set_same heap b _ (frame_lt_length hf), rfl, rfl, hr.yields,
    by simp [hr.resumes], hr.invoked, rfl, hr.source, hfs, rfl, hr.source_yields,
    by simp [hr.source_resumes]⟩

/-! ## Sequences of resumptions of the coroutine fmap -/

theorem fmap_advance_ready {σ S U : Type} (src : σ → Outcome σ S) (e : Ending)
    (func : S → Option U) (a b : Nat) :
    ∀ (pre : List S) (us : List U) (rest : List S) (n : Nat)
      (heap : Heap (fmap_vars σ S U) U) (fr : Frame (fmap_vars σ S U) U) (sfr : Frame σ S),
      Heap.frame heap b = some fr → fmap_ready src e func a fr sfr n (pre ++ rest) →
      pre.map func = us.map some →
      ∃ heap1 fr1 sfr1,
        advance (fmap_body src) pre.length { m_coroutine := some b } heap
          = Except.ok ({ m_coroutine := some b }, heap1) ∧
        Heap.frame heap1 b = some fr1 ∧
        fmap_ready src e func a fr1 sfr1 (n + pre.length) rest := by
  intro pre
  induction pre with
  | nil =>
    intro us rest n heap fr sfr hf hr _
    exact ⟨heap, fr, sfr, rfl, hf, by simpa using hr⟩
  | cons x pre ih =>
    intro us rest n heap fr sfr hf hr hmap
    cases us with
    | nil => simp at hmap
    | cons ux us =>
      simp only [List.map_cons, List.cons.injEq] at hmap
      obtain ⟨hx, hmap1⟩ := hmap
      obtain ⟨heap1, fr1, sfr1, hrun, hf1, hy⟩ :=
        fmap_step_yield src e func a b heap fr sfr n x (pre ++ rest) ux hf hr hx
      obtain ⟨heap2, fr2, sfr2, hadv, hf2, hr2⟩ :=
        ih us rest (n + 1) heap1 fr1 sfr1 hf1 (fmap_at_yield_ready hy) hmap1
      refine ⟨heap2, fr2, sfr2, ?_, hf2, ?_⟩
      · simp only [List.length_cons, advance, inc_handle _ hrun]
        exact hadv
      · have hn : n + (x :: pre).length = n + 1 + pre.length := by
          simp only [List.length_cons]; omega
        rw [hn]
        exact hr2

theorem fmap_advance_yield {σ S U : Type} (src : σ → Outcome σ S) (e : Ending)
    (func : S → Option U) (a b : Nat) (pre : List S) (us : List U) (rest : List S)
    (n : Nat) (heap : Heap (fmap_vars σ S U) U) (fr : Frame (fmap_vars σ S U) U)
    (sfr : Frame σ S) (w : S) (u : U)
    (hf : Heap.frame heap b = some fr)
    (hr : fmap_ready src e func a fr sfr n (pre ++ w :: rest))
    (hmap : pre.map func = us.map some) (hu : func w = some u) :
    ∃ heap1 fr1 sfr1,
      advance (fmap_body src) (pre.length + 1) { m_coroutine := some b } heap
        = Except.ok ({ m_coroutine := some b }, heap1) ∧
      Heap.frame heap1 b = some fr1 ∧
      fmap_at_yield src e func a fr1 sfr1 w u (n + pre.length + 1) rest := by
  obtain ⟨heap1, fr1, sfr1, hadv, hf1, hr1⟩ :=
    fmap_advance_ready src e func a b pre us (w :: rest) n heap fr sfr hf hr hmap
  obtain ⟨heap2, fr2, sfr2, hrun, hf2, hy⟩ :=
    fmap_step_yield src e func a b heap1 fr1 sfr1 (n + pre.length) w rest u hf1 hr1 hu
  refine ⟨heap2, fr2, sfr2, ?_, hf2, hy⟩
  rw [advance_succ, hadv]
  exact inc_handle _ hrun

theorem fmap_advance_fault {σ S U : Type} (src : σ → Outcome σ S) (e : Ending)
    (func : S → Option U) (a b : Nat) (pre : List S) (us : List U) (rest : List S)
    (n : Nat) (heap : Heap (fmap_vars σ S U) U) (fr : Frame (fmap_vars σ S U) U)
    (sfr : Frame σ S) (w : S)
    (hf : Heap.frame heap b = some fr)
    (hr : fmap_ready src e func a fr sfr n (pre ++ w :: rest))
    (hmap : pre.map func = us.map some) (hu : func w = none) :
    ∃ heap1 fr1 sfr1,
      advance (fmap_body src) (pre.length + 1) { m_coroutine := some b } heap
        = Except.ok ({ m_coroutine := some b }, heap1) ∧
      Heap.frame heap1 b = some fr1 ∧
      fr1.point = SuspendPoint.final ∧ fr1.operand = none ∧
      fr1.yields = n + pre.length ∧ fr1.resumes = n + pre.length + 1 ∧
      fr1.vars.invoked = n + pre.length + 1 ∧ fr1.vars.it = none ∧
      fr1.vars.source.m_coroutine = some a ∧
      Heap.frame fr1.vars.memory a = some sfr1 ∧
      sfr1.point = SuspendPoint.yield ∧ sfr1.operand = some w ∧
      sfr1.yields = n + pre.length + 1 ∧ sfr1.resumes = n + pre.length + 1 ∧
      emits src e sfr1.vars rest := by
  obtain ⟨heap1, fr1, sfr1, hadv, hf1, hr1⟩ :=
    fmap_advance_ready src e func a b pre us (w :: rest) n heap fr sfr hf hr hmap
  obtain ⟨heap2, fr2, sfr2, hrun, hf2, hrest⟩ :=
    fmap_step_fault src e func a b heap1 fr1 sfr1 (n + pre.length) w rest hf1 hr1 hu
  refine ⟨heap2, fr2, sfr2, ?_, hf2, hrest⟩
  rw [advance_succ, hadv]
  exact inc_handle _ hrun

theorem fmap_advance_end {σ S U : Type} (src : σ → Outcome σ S) (e : Ending)
    (func : S → Option U) (a b : Nat) (vs : List S) (us : List U)
    (n : Nat) (heap : Heap (fmap_vars σ S U) U) (fr : Frame (fmap_vars σ S U) U)
    (sfr : Frame σ S)
    (hf : Heap.frame heap b = some fr)
    (hr : fmap_ready src e func a fr sfr n vs)
    (hmap : vs.map func = us.map some) :
    ∃ heap1 fr1 sfr1,
      advance (fmap_body src) (vs.length + 1) { m_coroutine := some b } heap
        = Except.ok ({ m_coroutine := some b }, heap1) ∧
      Heap.frame heap1 b = some fr1 ∧
      fr1.point = SuspendPoint.final ∧ fr1.operand = none ∧
      fr1.yields = n + vs.length ∧ fr1.resumes = n + vs.length + 1 ∧
      fr1.vars.invoked = n + vs.length ∧ fr1.vars.it = none ∧
      fr1.vars.source.m_coroutine = some a ∧
      Heap.frame fr1.vars.memory a = some sfr1 ∧
      sfr1.point = SuspendPoint.final ∧ sfr1.yields = n + vs.length ∧
      sfr1.resumes = n + vs.length + 1 := by
  obtain ⟨heap1, fr1, sfr1, hadv, hf1, hr1⟩ :=
    fmap_advance_ready src e func a b vs us [] n heap fr sfr hf (by simpa using hr) hmap
  obtain ⟨heap2, fr2, sfr2, hrun, hf2, hrest⟩ :=
    fmap_step_end src e func a b heap1 fr1 sfr1 (n + vs.length) hf1 hr1
  refine ⟨heap2, fr2, sfr2, ?_, hf2, hrest⟩
  rw [advance_succ, hadv]
  exact inc_handle _ hrun

theorem fmap_invoke_ready {σ S U : Type} (src : σ → Outcome σ S) (e : Ending)
    (func : S → Option U) (args : σ) (vs : List S) (mem : Heap σ S)
    (he : emits src e args vs) :
    fmap_ready src e func mem.length
      ({ point := SuspendPoint.initial,
         vars := { func := func, source := (invoke args mem).1,
                   memory := (invoke args mem).2, it := none, invoked := 0 },
         operand := none, promise := promise_type.default, yields := 0, resumes := 0 } :
        Frame (fmap_vars σ S U) U)
      ({ point := SuspendPoint.initial, vars := args, operand := none,
         promise := promise_type.default, yields := 0, resumes := 0 } : Frame σ S)
      0 vs where
  point := by simp
  yields := rfl
  resumes := rfl
  func := rfl
  source := rfl
  it := Or.inl rfl
  invoked := rfl
  memory := (invoke_frame args mem).2
  source_point := by simp
  source_yields := rfl
  source_resumes := rfl
  source_rest := he

theorem fmap_emits_fault {σ S U : Type} (src : σ → Outcome σ S) (func : S → Option U)
    (e : Ending) (a : Nat) (w : S) (post : List S) (hw : func w = none) :
    ∀ (pre : List S) (us : List U) (v : fmap_vars σ S U) (sfr : Frame σ S),
      v.func = func → v.source.m_coroutine = some a →
      (v.it = none ∨ v.it = some { m_coroutine := some a }) →
      Heap.frame v.memory a = some sfr → sfr.point ≠ SuspendPoint.final →
      emits src e sfr.vars (pre ++ w :: post) → pre.map func = us.map some →
      emits (fmap_body src) Ending.throws v us := by
  intro pre
  induction pre with
  | nil =>
    intro us v sfr hfun hs hit hf hp he hmap
    cases us with
    | cons ux us => simp at hmap
    | nil =>
      obtain ⟨s1, hb, -⟩ := he
      have hr := resume_co_yield src hf hp hb
      have hf1 := frame_set_same v.memory a (some
        { point := SuspendPoint.yield, vars := s1, operand := some w,
          promise := { m_value := pointer_type.operand (sfr.yields + 1) },
          yields := sfr.yields + 1, resumes := sfr.resumes + 1 }) (frame_lt_length hf)
      have hfw : v.func w = none := by rw [hfun]; exact hw
      refine ⟨{ func := v.func, source := v.source,
                memory := v.memory.set a (some
                  { point := SuspendPoint.yield, vars := s1, operand := some w,
                    promise := { m_value := pointer_type.operand (sfr.yields + 1) },
                    yields := sfr.yields + 1, resumes := sfr.resumes + 1 }),
                it := none, invoked := v.invoked + 1 }, ?_⟩
      rw [fmap_body_resumed src v hs hit hr hf1]
      simp [Frame.value, hfw]
  | cons x pre ih =>
    intro us v sfr hfun hs hit hf hp he hmap
    cases us with
    | nil => simp at hmap
    | cons ux us =>
      simp only [List.map_cons, List.cons.injEq] at hmap
      obtain ⟨hx, hmap1⟩ := hmap
      obtain ⟨s1, hb, hrest⟩ := he
      have hr := resume_co_yield src hf hp hb
      have hf1 := frame_set_same v.memory a (some
        { point := SuspendPoint.yield, vars := s1, operand := some x,
          promise := { m_value := pointer_type.operand (sfr.yields + 1) },
          yields := sfr.yields + 1, resumes := sfr.resumes + 1 }) (frame_lt_length hf)
      have hfx : v.func x = some ux := by rw [hfun]; exact hx
      refine ⟨{ func := v.func, source := v.source,
                memory := v.memory.set a (some
                  { point := SuspendPoint.yield, vars := s1, operand := some x,
                    promise := { m_value := pointer_type.operand (sfr.yields + 1) },
                    yields := sfr.yields + 1, resumes := sfr.resumes + 1 }),
                it := some { m_coroutine := some a }, invoked := v.invoked + 1 }, ?_, ?_⟩
      · rw [fmap_body_resumed src v hs hit hr hf1]
        simp [Frame.value, hfx]
      · exact ih us _ _ hfun hs (Or.inr rfl) hf1 (by simp) hrest hmap1

/-! ## Claims -/

/-- C1. For every producer that emits the finite sequence `vs` and then ends,
the loop `it = begin(g); while it != end(): read *it; ++it`, run on the
generator returned by invoking the producer, returns (for every fuel above
`vs.length`), reads exactly `vs` in order, performs exactly `vs.length`
advances, and the iterator at exit compares equal to the sentinel. -/
theorem range_for_yields_sequence {σ T : Type} (body : σ → Outcome σ T) (args : σ)
    (vs : List T) (heap : Heap σ T) (k : Nat)
    (he : emits body Ending.returns args vs) :
    ∃ r, range_for body (vs.length + 1 + k) (invoke args heap).1 (invoke args heap).2
        = Except.ok (some r) ∧
      r.values = vs ∧ r.advances = vs.length ∧
      r.it.operator_eq ({} : sentinel) r.heap = Except.ok true := by
  obtain ⟨hg, hf⟩ := invoke_frame args heap
  obtain ⟨r, fr1, hrun, hvals, hadv, hrit, hfr1, hpt, -⟩ :=
    range_for_emits body Ending.returns heap.length vs (invoke args heap).2 _
      (vs.length + 1 + k) hf (by simp) he (by omega)
  refine ⟨r, by rw [hg]; exact hrun, hvals, hadv, ?_⟩
  rw [hrit, operator_eq_frame _ hfr1]
  simp [hpt]

/-- C1, at `Test::Range12`: the loop of `main` reads `1` then `2`, advances
twice and ends equal to the sentinel. -/
theorem range_for_yields_sequence_witness :
    emits Test.Range12_body Ending.returns 0 [1, 2] ∧
    ∃ r, range_for Test.Range12_body (([1, 2] : List Int).length + 1 + 0)
          (Test.Range12 []).1 (Test.Range12 []).2 = Except.ok (some r) ∧
      r.values = [1, 2] ∧ r.advances = ([1, 2] : List Int).length ∧
      r.it.operator_eq ({} : sentinel) r.heap = Except.ok true :=
  ⟨⟨1, rfl, 2, rfl, 2, none, rfl⟩,
   range_for_yields_sequence Test.Range12_body 0 [1, 2] [] 0 ⟨1, rfl, 2, rfl, 2, none, rfl⟩⟩

/-- C2. For every transform `f` and every producer that emits the finite
sequence `vs` and then ends, full iteration of `fmap(f, gen)` returns, reads
exactly `vs.map f` in order, and the iterator at exit compares equal to the
sentinel. -/
theorem fmap_yields_mapped_sequence {σ S U : Type} (src : σ → Outcome σ S) (f : S → U)
    (args : σ) (vs : List S) (mem : Heap σ S) (heap : Heap (fmap_vars σ S U) U) (k : Nat)
    (he : emits src Ending.returns args vs) :
    ∃ r, range_for (fmap_body src) (vs.length + 1 + k)
          (fmap (fun x => some (f x)) (invoke args mem).1 (invoke args mem).2 heap).1
          (fmap (fun x => some (f x)) (invoke args mem).1 (invoke args mem).2 heap).2
        = Except.ok (some r) ∧
      r.values = vs.map f ∧ r.advances = vs.length ∧
      r.it.operator_eq ({} : sentinel) r.heap = Except.ok true := by
  obtain ⟨hg, hf⟩ := fmap_frame (fun x => some (f x)) (invoke args mem).1
    (invoke args mem).2 heap
  obtain ⟨r, fr1, hrun, hvals, hadv, hrit, hfr1, hpt, -⟩ :=
    range_for_emits (fmap_body src) Ending.returns heap.length (vs.map f) _ _
      (vs.length + 1 + k) hf (by simp)
      (fmap_invoke_emits src f Ending.returns args vs mem he) (by simp)
  refine ⟨r, by rw [hg]; exact hrun, hvals, by simpa using hadv, ?_⟩
  rw [hrit, operator_eq_frame _ hfr1]
  simp [hpt]

/-- C2, at `f = x*x` on a producer emitting `1, 2, 3`: iteration reads
`1, 4, 9`. -/
theorem fmap_yields_mapped_sequence_witness :
    emits (fun pc : Nat => match pc with
        | 0 => Outcome.co_yield (1 : Int) 1
        | 1 => Outcome.co_yield 2 2
        | 2 => Outcome.co_yield 3 3
        | _ => Outcome.co_return 3 none) Ending.returns 0 [1, 2, 3] ∧
    ∃ r, range_for (fmap_body (fun pc : Nat => match pc with
            | 0 => Outcome.co_yield (1 : Int) 1
            | 1 => Outcome.co_yield 2 2
            | 2 => Outcome.co_yield 3 3
            | _ => Outcome.co_return 3 none)) (([1, 2, 3] : List Int).length + 1 + 0)
          (fmap (fun x : Int => some (x * x)) (invoke (0 : Nat) ([] : Heap Nat Int)).1
            (invoke (0 : Nat) ([] : Heap Nat Int)).2 []).1
          (fmap (fun x : Int => some (x * x)) (invoke (0 : Nat) ([] : Heap Nat Int)).1
            (invoke (0 : Nat) ([] : Heap Nat Int)).2 []).2
        = Except.ok (some r) ∧
      r.values = [1, 4, 9] ∧ r.advances = 3 ∧
      r.it.operator_eq ({} : sentinel) r.heap = Except.ok true :=
  ⟨⟨1, rfl, 2, rfl, 3, rfl, 3, none, rfl⟩,
   fmap_yields_mapped_sequence _ (fun x : Int => x * x) 0 [1, 2, 3] [] [] 0
     ⟨1, rfl, 2, rfl, 3, rfl, 3, none, rfl⟩⟩

/-- C3. Functor composition: for all transforms `f` and `g` and every producer
that emits a finite sequence and then ends, full iteration of
`fmap(g, fmap(f, gen))` and of `fmap(x -> g(f(x)), gen)` both return and read
the same sequence, element for element and of the same length. -/
theorem fmap_composition {σ S U V : Type} (src : σ → Outcome σ S) (f : S → U) (g : U → V)
    (args : σ) (vs : List S) (mem : Heap σ S) (heap1 : Heap (fmap_vars σ S U) U)
    (heap2 : Heap (fmap_vars (fmap_vars σ S U) U V) V) (heap3 : Heap (fmap_vars σ S V) V)
    (k : Nat) (he : emits src Ending.returns args vs) :
    ∃ r1 r2,
      range_for (fmap_body (fmap_body src)) (vs.length + 1 + k)
          (fmap (fun y => some (g y))
            (fmap (fun x => some (f x)) (invoke args mem).1 (invoke args mem).2 heap1).1
            (fmap (fun x => some (f x)) (invoke args mem).1 (invoke args mem).2 heap1).2
            heap2).1
          (fmap (fun y => some (g y))
            (fmap (fun x => some (f x)) (invoke args mem).1 (invoke args mem).2 heap1).1
            (fmap (fun x => some (f x)) (invoke args mem).1 (invoke args mem).2 heap1).2
            heap2).2
        = Except.ok (some r1) ∧
      range_for (fmap_body src) (vs.length + 1 + k)
          (fmap (fun x => some (g (f x))) (invoke args mem).1 (invoke args mem).2 heap3).1
          (fmap (fun x => some (g (f x))) (invoke args mem).1 (invoke args mem).2 heap3).2
        = Except.ok (some r2) ∧
      r1.values = r2.values ∧ r1.values.length = r2.values.length ∧
      r1.values = vs.map (fun x => g (f x)) := by
  obtain ⟨r2, hrun2, hvals2, -, -⟩ :=
    fmap_yields_mapped_sequence src (fun x => g (f x)) args vs mem heap3 k he
  obtain ⟨hg1, hf1⟩ := fmap_frame (fun x => some (f x)) (invoke args mem).1
    (invoke args mem).2 heap1
  have hinner := fmap_invoke_emits src f Ending.returns args vs mem he
  obtain ⟨hg2, hf2⟩ := fmap_frame (fun y => some (g y))
    (fmap (fun x => some (f x)) (invoke args mem).1 (invoke args mem).2 heap1).1
    (fmap (fun x => some (f x)) (invoke args mem).1 (invoke args mem).2 heap1).2 heap2
  have houter : emits (fmap_body (fmap_body src)) Ending.returns
      ({ func := fun y => some (g y),
         source := (fmap (fun x => some (f x)) (invoke args mem).1
            (invoke args mem).2 heap1).1,
         memory := (fmap (fun x => some (f x)) (invoke args mem).1
            (invoke args mem).2 heap1).2,
         it := none, invoked := 0 } : fmap_vars (fmap_vars σ S U) U V)
      ((vs.map f).map g) :=
    fmap_emits (fmap_body src) g Ending.returns heap1.length (vs.map f) _ _ rfl
      (by rw [hg1]) (Or.inl rfl) hf1 (by simp) hinner
  obtain ⟨r1, fr1, hrun1, hvals1, -⟩ :=
    range_for_emits (fmap_body (fmap_body src)) Ending.returns heap2.length
      ((vs.map f).map g) _ _ (vs.length + 1 + k) hf2 (by simp) houter (by simp)
  have hv : r1.values = vs.map (fun x => g (f x)) := by
    rw [hvals1, List.map_map]; rfl
  refine ⟨r1, r2, by rw [hg2]; exact hrun1, hrun2, ?_, ?_, hv⟩
  · rw [hv, hvals2]
  · rw [hv, hvals2]

/-- C3, at `f = x + 1`, `g = 2 * x` on `Test::Range12`. -/
theorem fmap_composition_witness :
    emits Test.Range12_body Ending.returns 0 [1, 2] ∧
    ∃ r1 r2,
      range_for (fmap_body (fmap_body Test.Range12_body)) (([1, 2] : List Int).length + 1 + 0)
          (fmap (fun y : Int => some (2 * y))
            (fmap (fun x : Int => some (x + 1)) (Test.Range12 []).1 (Test.Range12 []).2 []).1
            (fmap (fun x : Int => some (x + 1)) (Test.Range12 []).1 (Test.Range12 []).2 []).2
            []).1
          (fmap (fun y : Int => some (2 * y))
            (fmap (fun x : Int => some (x + 1)) (Test.Range12 []).1 (Test.Range12 []).2 []).1
            (fmap (fun x : Int => some (x + 1)) (Test.Range12 []).1 (Test.Range12 []).2 []).2
            []).2
        = Except.ok (some r1) ∧
      range_for (fmap_body Test.Range12_body) (([1, 2] : List Int).length + 1 + 0)
          (fmap (fun x : Int => some (2 * (x + 1))) (Test.Range12 []).1 (Test.Range12 []).2 []).1
          (fmap (fun x : Int => some (2 * (x + 1))) (Test.Range12 []).1 (Test.Range12 []).2 []).2
        = Except.ok (some r2) ∧
      r1.values = r2.values ∧ r1.values.length = r2.values.length ∧
      r1.values = ([1, 2] : List Int).map (fun x => 2 * (x + 1)) :=
  ⟨⟨1, rfl, 2, rfl, 2, none, rfl⟩,
   fmap_composition Test.Range12_body (fun x : Int => x + 1) (fun y : Int => 2 * y) 0 [1, 2]
     [] [] [] [] 0 ⟨1, rfl, 2, rfl, 2, none, rfl⟩⟩

/-- C4. For every iterator and memory, `it == s` is true exactly when the
handle is null or the referenced coroutine state is at its final suspend point
(Completed); `s == it` gives the same result as `it == s`; `it != s` and
`s != it` give its negation; and the comparison returns a truth value whenever
the handle is null or refers to a live state. -/
theorem sentinel_equality {σ T : Type} (heap : Heap σ T) (it : iterator) (s : sentinel) :
    (it.operator_eq s heap = Except.ok true ↔
      (it.m_coroutine = none ∨
        ∃ a fr, it.m_coroutine = some a ∧ Heap.frame heap a = some fr ∧
          fr.point = SuspendPoint.final)) ∧
    s.operator_eq it heap = it.operator_eq s heap ∧
    it.operator_ne s heap = (it.operator_eq s heap).map (fun b => !b) ∧
    s.operator_ne it heap = (it.operator_eq s heap).map (fun b => !b) ∧
    ((it.m_coroutine = none ∨ ∃ a fr, it.m_coroutine = some a ∧ Heap.frame heap a = some fr) →
      ∃ b, it.operator_eq s heap = Except.ok b) := by
  have hne : it.operator_ne s heap = (it.operator_eq s heap).map (fun b => !b) := by
    unfold iterator.operator_ne
    cases it.operator_eq s heap <;> rfl
  refine ⟨?_, rfl, hne, hne, ?_⟩
  · cases it with
    | mk h =>
      cases h with
      | none => simp [iterator.operator_eq]
      | some a =>
        cases hf : Heap.frame heap a with
        | none => simp [iterator.operator_eq, coroutine_handle.done, hf]
        | some fr => simp [operator_eq_frame s hf, hf]
  · rintro (h | ⟨a, fr, h, hf⟩)
    · exact ⟨true, by simp [iterator.operator_eq, h]⟩
    · cases it with
      | mk h0 =>
        cases h
        exact ⟨_, operator_eq_frame s hf⟩

/-- C5 fails as stated: after the loop of `main` has exhausted `Test::Range12`
the coroutine is at its final suspend point, and `*it` does not fail with
`InvalidState`: `operator*` reads `*m_value` unchecked, through the address of
the operand of the second `co_yield`, a temporary that is dead. -/
theorem deref_completed_counterexample :
    ∃ r fr, range_for Test.Range12_body 3 (Test.Range12 []).1 (Test.Range12 []).2
        = Except.ok (some r) ∧
      r.it = { m_coroutine := some 0 } ∧ Heap.frame r.heap 0 = some fr ∧
      fr.point = SuspendPoint.final ∧
      fr.promise.m_value = pointer_type.operand 2 ∧
      (r.it.operator_deref r.heap : Except Fault Int) = Except.error Fault.dangling_pointer ∧
      (r.it.operator_deref r.heap : Except Fault Int) ≠ Except.error Fault.InvalidState :=
  ⟨_, _, rfl, rfl, rfl, rfl, rfl, rfl, by
    intro h
    have h2 : (Except.error Fault.dangling_pointer : Except Fault Int) =
        Except.error Fault.InvalidState := h
    cases h2⟩

/-- C5, amended. Dereferencing an iterator whose coroutine is at its final
suspend point is not checked and never fails with `InvalidState`: `operator*`
performs the same unconditional read of `*m_value` as in any other phase.  In
every memory satisfying the slot invariant that read is undefined when no
`co_yield` was evaluated (`m_value` is indeterminate) or when the object
designated by the operand of the last `co_yield` is dead (a temporary), and it
returns the value of that object when the object is still alive (as after
`co_yield std::move(parameter)`).  No dereference, in any state, fails with
`InvalidState`. -/
theorem deref_completed_unchecked {σ T : Type} (heap : Heap σ T) (a : Nat) (fr : Frame σ T)
    (hinv : Heap.slot_inv heap) (hf : Heap.frame heap a = some fr)
    (hp : fr.point = SuspendPoint.final) :
    iterator.operator_deref { m_coroutine := some a } heap =
      (if fr.yields = 0 then Except.error Fault.indeterminate_pointer
       else match fr.operand with
         | none => Except.error Fault.dangling_pointer
         | some v => Except.ok v) ∧
    ∀ (it : iterator) (hp1 : Heap σ T),
      (it.operator_deref hp1 : Except Fault T) ≠ Except.error Fault.InvalidState := by
  refine ⟨?_, ?_⟩
  · rw [operator_deref_frame hf]
    exact slot_inv_value_final (hinv a fr hf) hp
  · intro it hp1
    exact operator_deref_ne_invalid it hp1

/-- C5 amended, at a producer that emits its parameter `7` by
`co_yield std::move(x)` and ends: after full iteration the coroutine is at its
final suspend point, the parameter is still alive, and `*it` returns `7`. -/
theorem deref_completed_unchecked_witness :
    (∃ r, range_for (fun pc : Nat => match pc with
          | 0 => Outcome.co_yield (7 : Int) 1
          | _ => Outcome.co_return pc (some 7)) 2
          (invoke 0 ([] : Heap Nat Int)).1 (invoke 0 ([] : Heap Nat Int)).2
        = Except.ok (some r) ∧
      r.heap =
      ([some { point := SuspendPoint.final, vars := 1, operand := some 7,
               promise := { m_value := pointer_type.operand 1 }, yields := 1,
               resumes := 2 }] : Heap Nat Int)) ∧
    Heap.slot_inv
      ([some { point := SuspendPoint.final, vars := 1, operand := some 7,
               promise := { m_value := pointer_type.operand 1 }, yields := 1,
               resumes := 2 }] : Heap Nat Int) ∧
    (iterator.operator_deref { m_coroutine := some 0 }
      ([some { point := SuspendPoint.final, vars := 1, operand := some 7,
               promise := { m_value := pointer_type.operand 1 }, yields := 1,
               resumes := 2 }] : Heap Nat Int)
      : Except Fault Int) = Except.ok 7 := by
  have hinv : Heap.slot_inv
      ([some { point := SuspendPoint.final, vars := 1, operand := some 7,
               promise := { m_value := pointer_type.operand 1 }, yields := 1,
               resumes := 2 }] : Heap Nat Int) := by
    intro a fr h
    cases a with
    | zero =>
      simp [Heap.frame] at h
      subst h
      simp [Frame.slot_inv]
    | succ n => simp [Heap.frame] at h
  exact ⟨⟨_, rfl, rfl⟩, hinv, (deref_completed_unchecked _ 0 _ hinv rfl rfl).1⟩

/-- C6 fails as stated: once the loop of `main` has exhausted `Test::Range12`,
calling `begin` again, or `++` on the iterator, does not return an iterator: both
call `resume()` on the coroutine at its final suspend point. -/
theorem begin_after_exhaustion_counterexample :
    ∃ r, range_for Test.Range12_body 3 (Test.Range12 []).1 (Test.Range12 []).2
        = Except.ok (some r) ∧
      r.it.operator_eq ({} : sentinel) r.heap = Except.ok true ∧
      generator.begin Test.Range12_body (Test.Range12 []).1 r.heap
        = Except.error Fault.resume_at_final ∧
      r.it.operator_inc Test.Range12_body r.heap = Except.error Fault.resume_at_final :=
  ⟨_, rfl, rfl, rfl, rfl⟩

/-- C6, amended. For every generator whose coroutine is at its final suspend
point, an iterator on it compares equal to the sentinel (a comparison takes no
producer body and returns no memory: it runs no producer code and changes
nothing); `begin` and `++` are not guarded against that state: each calls
`resume()` on the finished coroutine, which violates the precondition of
`resume()`, so neither is a no-op returning an iterator. -/
theorem exhausted_generator {σ T : Type} (body : σ → Outcome σ T) (heap : Heap σ T)
    (a : Nat) (fr : Frame σ T) (s : sentinel)
    (hf : Heap.frame heap a = some fr) (hp : fr.point = SuspendPoint.final) :
    iterator.operator_eq { m_coroutine := some a } s heap = Except.ok true ∧
    iterator.operator_ne { m_coroutine := some a } s heap = Except.ok false ∧
    generator.begin body { m_coroutine := some a } heap
      = Except.error Fault.resume_at_final ∧
    iterator.operator_inc body { m_coroutine := some a } heap
      = Except.error Fault.resume_at_final := by
  refine ⟨?_, ?_, ?_, ?_⟩
  · simp [operator_eq_frame s hf, hp]
  · simp [operator_ne_frame s hf, hp]
  · simp [generator.begin, resume_final body hf hp]
  · simp [iterator.operator_inc, resume_final body hf hp]

/-- C6 amended, at the state of `Test::Range12` after both values were read. -/
theorem exhausted_generator_witness :
    (∃ r, range_for Test.Range12_body 3 (Test.Range12 []).1 (Test.Range12 []).2
        = Except.ok (some r) ∧ r.heap = Test.Range12_exhausted) ∧
    iterator.operator_eq { m_coroutine := some 0 } ({} : sentinel)
      Test.Range12_exhausted = Except.ok true ∧
    generator.begin Test.Range12_body { m_coroutine := some 0 }
      Test.Range12_exhausted = Except.error Fault.resume_at_final :=
  ⟨⟨_, rfl, rfl⟩,
   (exhausted_generator Test.Range12_body Test.Range12_exhausted 0 _ {} rfl rfl).1,
   (exhausted_generator Test.Range12_body
      Test.Range12_exhausted 0 _ {} rfl rfl).2.2.1⟩

/-- C7 fails as stated: `begin` on a moved-from generator returns an iterator
with a null handle, and `++` on that iterator (which is also the
default-constructed iterator) calls `resume()` on the null handle. -/
theorem advance_empty_counterexample :
    (generator.move (Test.Range12 []).1).2 = { m_coroutine := none } ∧
    generator.begin Test.Range12_body (generator.move (Test.Range12 []).1).2
        (Test.Range12 []).2
      = Except.ok (iterator.ctor none, (Test.Range12 []).2) ∧
    (iterator.ctor none).operator_inc Test.Range12_body (Test.Range12 []).2
      = Except.error Fault.null_handle :=
  ⟨rfl, rfl, rfl⟩

/-- C7, amended. A moved-from generator holds a null handle; on it `begin`
resumes nothing, leaves the memory as it is and returns the iterator with a
null handle, which (like the default-constructed iterator) compares equal to
the sentinel in both directions.  Advancing such an iterator is not guarded:
`++` calls `resume()` on the null handle. -/
theorem empty_handle {σ T : Type} (body : σ → Outcome σ T) (heap : Heap σ T)
    (g : generator) (s : sentinel) :
    (generator.move g).2.m_coroutine = none ∧
    generator.begin body (generator.move g).2 heap = Except.ok (iterator.ctor none, heap) ∧
    (iterator.ctor none).operator_eq s heap = Except.ok true ∧
    s.operator_eq (iterator.ctor none) heap = Except.ok true ∧
    (iterator.ctor none).operator_ne s heap = Except.ok false ∧
    s.operator_ne (iterator.ctor none) heap = Except.ok false ∧
    (iterator.ctor none).operator_inc body heap = Except.error Fault.null_handle :=
  ⟨rfl, rfl, rfl, rfl, rfl, rfl, rfl⟩

/-- C8. If the producer emits `vs` and then an exception escapes its body, the
exception is not surfaced: the resume during which it escapes returns normally
from `begin` and from `++` and leaves the coroutine at its final suspend point
(Completed), and full iteration returns, reads exactly `vs`, and ends equal to
the sentinel, with the same values and the same number of advances as for any
producer that emits `vs` and ends normally. -/
theorem producer_fault_discarded {σ σ2 T : Type} (body : σ → Outcome σ T)
    (body2 : σ2 → Outcome σ2 T) (args : σ) (args2 : σ2) (vs : List T)
    (heap : Heap σ T) (heap2 : Heap σ2 T) (k : Nat)
    (he : emits body Ending.throws args vs) (he2 : emits body2 Ending.returns args2 vs) :
    (∃ r r2 fr,
      range_for body (vs.length + 1 + k) (invoke args heap).1 (invoke args heap).2
        = Except.ok (some r) ∧
      range_for body2 (vs.length + 1 + k) (invoke args2 heap2).1 (invoke args2 heap2).2
        = Except.ok (some r2) ∧
      r.values = vs ∧ r2.values = vs ∧ r.advances = vs.length ∧ r2.advances = vs.length ∧
      Heap.frame r.heap heap.length = some fr ∧ fr.point = SuspendPoint.final ∧
      r.it.operator_eq ({} : sentinel) r.heap = Except.ok true ∧
      r2.it.operator_eq ({} : sentinel) r2.heap = Except.ok true) ∧
    (∀ (hp : Heap σ T) (a : Nat) (fr : Frame σ T) (s1 : σ) (kept : Option T),
      Heap.frame hp a = some fr → fr.point ≠ SuspendPoint.final →
      body fr.vars = Outcome.exception s1 kept →
      ∃ hp1 fr1,
        generator.begin body { m_coroutine := some a } hp
          = Except.ok ({ m_coroutine := some a }, hp1) ∧
        iterator.operator_inc body { m_coroutine := some a } hp
          = Except.ok ({ m_coroutine := some a }, hp1) ∧
        Heap.frame hp1 a = some fr1 ∧ fr1.point = SuspendPoint.final) := by
  constructor
  · obtain ⟨hg, hf⟩ := invoke_frame args heap
    obtain ⟨r, fr1, hrun, hvals, hadv, hrit, hfr1, hpt, -⟩ :=
      range_for_emits body Ending.throws heap.length vs (invoke args heap).2 _
        (vs.length + 1 + k) hf (by simp) he (by omega)
    obtain ⟨hg2, hf2⟩ := invoke_frame args2 heap2
    obtain ⟨r2, fr2, hrun2, hvals2, hadv2, hrit2, hfr2, hpt2, -⟩ :=
      range_for_emits body2 Ending.returns heap2.length vs (invoke args2 heap2).2 _
        (vs.length + 1 + k) hf2 (by simp) he2 (by omega)
    refine ⟨r, r2, fr1, by rw [hg]; exact hrun, by rw [hg2]; exact hrun2, hvals, hvals2,
      hadv, hadv2, hfr1, hpt, ?_, ?_⟩
    · rw [hrit, operator_eq_frame _ hfr1]
      simp [hpt]
    · rw [hrit2, operator_eq_frame _ hfr2]
      simp [hpt2]
  · intro hp a fr s1 kept hf hpt hb
    have hr := resume_exception body hf hpt hb
    refine ⟨_, _, begin_handle body hr, ?_, frame_set_same hp a _ (frame_lt_length hf), rfl⟩
    simp [iterator.operator_inc, hr]

/-- C8, at a producer that emits `7` and then throws, against one that emits
`7` and ends. -/
theorem producer_fault_discarded_witness :
    emits (fun pc : Nat => match pc with
        | 0 => Outcome.co_yield (7 : Int) 1
        | _ => Outcome.exception pc none) Ending.throws 0 [7] ∧
    emits (fun pc : Nat => match pc with
        | 0 => Outcome.co_yield (7 : Int) 1
        | _ => Outcome.co_return pc none) Ending.returns 0 [7] ∧
    ∃ r r2 fr,
      range_for (fun pc : Nat => match pc with
          | 0 => Outcome.co_yield (7 : Int) 1
          | _ => Outcome.exception pc none) (([7] : List Int).length + 1 + 0)
          (invoke 0 ([] : Heap Nat Int)).1 (invoke 0 ([] : Heap Nat Int)).2
        = Except.ok (some r) ∧
      range_for (fun pc : Nat => match pc with
          | 0 => Outcome.co_yield (7 : Int) 1
          | _ => Outcome.co_return pc none) (([7] : List Int).length + 1 + 0)
          (invoke 0 ([] : Heap Nat Int)).1 (invoke 0 ([] : Heap Nat Int)).2
        = Except.ok (some r2) ∧
      r.values = [7] ∧ r2.values = [7] ∧ r.advances = 1 ∧ r2.advances = 1 ∧
      Heap.frame r.heap 0 = some fr ∧ fr.point = SuspendPoint.final ∧
      r.it.operator_eq ({} : sentinel) r.heap = Except.ok true ∧
      r2.it.operator_eq ({} : sentinel) r2.heap = Except.ok true :=
  ⟨⟨1, rfl, 1, none, rfl⟩, ⟨1, rfl, 1, none, rfl⟩,
   (producer_fault_discarded
      (fun pc : Nat => match pc with
        | 0 => Outcome.co_yield (7 : Int) 1
        | _ => Outcome.exception pc none)
      (fun pc : Nat => match pc with
        | 0 => Outcome.co_yield (7 : Int) 1
        | _ => Outcome.co_return pc none)
      0 0 [7] [] [] 0 ⟨1, rfl, 1, none, rfl⟩ ⟨1, rfl, 1, none, rfl⟩).1⟩

/-- C9 fails as stated: after the loop of `main` has exhausted
`Test::Range12` the coroutine is at its final suspend point (Completed) and
`m_value` has not been cleared: it still holds the address of the operand of
the second `co_yield`, and differs from its value before the first resume. -/
theorem slot_not_cleared_counterexample :
    ∃ r fr, range_for Test.Range12_body 3 (Test.Range12 []).1 (Test.Range12 []).2
        = Except.ok (some r) ∧
      Heap.frame r.heap 0 = some fr ∧ fr.point = SuspendPoint.final ∧
      fr.promise.m_value = pointer_type.operand 2 ∧
      fr.promise.m_value ≠ promise_type.default.m_value :=
  ⟨_, _, rfl, rfl, rfl, rfl, by decide⟩

/-- C9, amended. The slot invariant holds in the empty memory and is preserved
by creating a coroutine, by `begin` and by `++`.  Under it, for every live
coroutine state: `m_value` is set if and only if at least one `co_yield` was
evaluated (it is never cleared); before the first resume it is indeterminate
and nothing can be read through it; whenever the coroutine is suspended at a
`co_yield`, `m_value` is the address of the operand of that `co_yield`, which
is alive and is what `*m_value` reads; at the final suspend point `m_value` is
left as the last `yield_value` set it: indeterminate when no `co_yield` was
evaluated and otherwise still the address of the operand of the last
`co_yield`. -/
theorem slot_invariant {σ T : Type} (body : σ → Outcome σ T) (heap : Heap σ T) (args : σ)
    (g : generator) (it : iterator) (hinv : Heap.slot_inv heap) :
    Heap.slot_inv ([] : Heap σ T) ∧
    Heap.slot_inv (invoke args heap).2 ∧
    (∀ it1 heap1, g.begin body heap = Except.ok (it1, heap1) → Heap.slot_inv heap1) ∧
    (∀ it1 heap1, it.operator_inc body heap = Except.ok (it1, heap1) →
      Heap.slot_inv heap1) ∧
    (∀ a fr, Heap.frame heap a = some fr →
      (fr.promise.m_value = pointer_type.indeterminate ↔ fr.yields = 0) ∧
      (fr.point = SuspendPoint.initial →
        fr.promise.m_value = pointer_type.indeterminate ∧ fr.operand = none ∧
        fr.value = Except.error Fault.indeterminate_pointer) ∧
      (fr.point = SuspendPoint.yield →
        fr.promise.m_value = pointer_type.operand fr.yields ∧
        ∃ v, fr.operand = some v ∧ fr.value = Except.ok v) ∧
      (fr.point = SuspendPoint.final →
        fr.promise.m_value =
          (if fr.yields = 0 then pointer_type.indeterminate
           else pointer_type.operand fr.yields))) := by
  refine ⟨slot_inv_nil, invoke_slot_inv args hinv, ?_, ?_, ?_⟩
  · intro it1 heap1 h
    exact begin_slot_inv body g hinv h
  · intro it1 heap1 h
    exact operator_inc_slot_inv body it hinv h
  · intro a fr hf
    have hfr := hinv a fr hf
    refine ⟨slot_inv_m_value hfr, ?_, ?_, ?_⟩
    · intro hp
      have hv := slot_inv_value_initial hfr hp
      simp only [Frame.slot_inv, hp] at hfr
      exact ⟨hfr.1, hfr.2.1, hv⟩
    · intro hp
      have hv := slot_inv_value_yield hfr hp
      simp only [Frame.slot_inv, hp] at hfr
      exact ⟨hfr.1, hv⟩
    · intro hp
      simp only [Frame.slot_inv, hp] at hfr
      exact hfr

/-- C9 amended, at the memory left by the loop of `main`. -/
theorem slot_invariant_witness :
    Heap.slot_inv Test.Range12_exhausted ∧
    Heap.slot_inv (invoke 5 Test.Range12_exhausted).2 ∧
    (∀ fr, Heap.frame Test.Range12_exhausted 0 = some fr →
      (fr.promise.m_value = pointer_type.indeterminate ↔ fr.yields = 0)) :=
  ⟨Range12_exhausted_slot_inv,
   (slot_invariant Test.Range12_body Test.Range12_exhausted 5 { m_coroutine := some 0 }
      { m_coroutine := some 0 } Range12_exhausted_slot_inv).2.1,
   fun fr h =>
     ((slot_invariant Test.Range12_body Test.Range12_exhausted 5 { m_coroutine := some 0 }
        { m_coroutine := some 0 } Range12_exhausted_slot_inv).2.2.2.2 0 fr h).1⟩

/-- C10. Invoking a producer and calling `fmap(f, source)` run no producer
code.  After `fmap` returns, the new coroutine is at its initial suspend point,
never resumed, with no `co_yield` evaluated, `func` called zero times and the
loop not entered; it holds the source generator, whose coroutine is still at
its initial suspend point, never resumed, with its arguments untouched, so
every value the producer emits is still pending; and every coroutine state
that existed before is unchanged. -/
theorem lazy_start {σ S U : Type} (src : σ → Outcome σ S) (func : S → Option U) (args : σ)
    (mem : Heap σ S) (heap : Heap (fmap_vars σ S U) U) :
    (invoke args mem).1.m_coroutine = some mem.length ∧
    Heap.frame (invoke args mem).2 mem.length = some
      { point := SuspendPoint.initial, vars := args, operand := none,
        promise := promise_type.default, yields := 0, resumes := 0 } ∧
    (∀ a, a < mem.length → Heap.frame (invoke args mem).2 a = Heap.frame mem a) ∧
    (∀ a, a < heap.length →
      Heap.frame (fmap func (invoke args mem).1 (invoke args mem).2 heap).2 a
        = Heap.frame heap a) ∧
    (fmap func (invoke args mem).1 (invoke args mem).2 heap).1.m_coroutine
      = some heap.length ∧
    ∃ fr srcfr,
      Heap.frame (fmap func (invoke args mem).1 (invoke args mem).2 heap).2 heap.length
        = some fr ∧
      fr.point = SuspendPoint.initial ∧ fr.resumes = 0 ∧ fr.yields = 0 ∧
      fr.vars.invoked = 0 ∧ fr.vars.it = none ∧
      fr.vars.source.m_coroutine = some mem.length ∧
      Heap.frame fr.vars.memory mem.length = some srcfr ∧
      srcfr.point = SuspendPoint.initial ∧ srcfr.resumes = 0 ∧ srcfr.yields = 0 ∧
      srcfr.vars = args ∧
      ∀ e vs, emits src e args vs → emits src e srcfr.vars vs := by
  refine ⟨rfl, (invoke_frame args mem).2, ?_, ?_, rfl, _, _,
    (fmap_frame func (invoke args mem).1 (invoke args mem).2 heap).2,
    rfl, rfl, rfl, rfl, rfl, rfl, (invoke_frame args mem).2, rfl, rfl, rfl, rfl, ?_⟩
  · intro a ha
    exact frame_append_old mem _ a ha
  · intro a ha
    exact frame_append_old heap _ a ha
  · intro e vs h
    exact h

/-- C12. `fmap` pulls from its source one value at a time with no look-ahead.
For a source that emits `vs` and every position `k` with value `w = vs[k]`:
`begin` plus `k` advances on `fmap(f, source)` return normally, the result is
suspended with pending value `f w` (read by `*it`), `f` has been called exactly
`k + 1` times, and the source is suspended on `w` after exactly `k + 1`
resumptions and `k + 1` emitted values, with the rest of `vs` still pending.
After `begin` plus `vs.length` advances both the result and the source are at
their final suspend point (Completed) and `f` has been called `vs.length`
times; so the source is Completed only after the advance that completes the
result. -/
theorem fmap_pulls_one_at_a_time {σ S U : Type} (src : σ → Outcome σ S) (f : S → U)
    (e : Ending) (args : σ) (vs : List S) (mem : Heap σ S)
    (heap : Heap (fmap_vars σ S U) U) (he : emits src e args vs) :
    (∀ (k : Nat) (w : S), vs[k]? = some w →
      ∃ heap1 fr sfr,
        begin_advance (fmap_body src) k
            (fmap (fun x => some (f x)) (invoke args mem).1 (invoke args mem).2 heap).1
            (fmap (fun x => some (f x)) (invoke args mem).1 (invoke args mem).2 heap).2
          = Except.ok ({ m_coroutine := some heap.length }, heap1) ∧
        Heap.frame heap1 heap.length = some fr ∧
        iterator.operator_deref { m_coroutine := some heap.length } heap1
          = Except.ok (f w) ∧
        fr.point = SuspendPoint.yield ∧ fr.vars.invoked = k + 1 ∧
        Heap.frame fr.vars.memory mem.length = some sfr ∧
        sfr.point = SuspendPoint.yield ∧ sfr.operand = some w ∧
        sfr.yields = k + 1 ∧ sfr.resumes = k + 1 ∧
        emits src e sfr.vars (vs.drop (k + 1))) ∧
    (∃ heap1 fr sfr,
      begin_advance (fmap_body src) vs.length
          (fmap (fun x => some (f x)) (invoke args mem).1 (invoke args mem).2 heap).1
          (fmap (fun x => some (f x)) (invoke args mem).1 (invoke args mem).2 heap).2
        = Except.ok ({ m_coroutine := some heap.length }, heap1) ∧
      Heap.frame heap1 heap.length = some fr ∧
      fr.point = SuspendPoint.final ∧ fr.vars.invoked = vs.length ∧
      Heap.frame fr.vars.memory mem.length = some sfr ∧
      sfr.point = SuspendPoint.final ∧ sfr.yields = vs.length) := by
  obtain ⟨hg, hf⟩ := fmap_frame (fun x => some (f x)) (invoke args mem).1
    (invoke args mem).2 heap
  have hready := fmap_invoke_ready src e (fun x => some (f x)) args vs mem he
  constructor
  · intro k w hw
    have hlt : k < vs.length := (List.getElem?_eq_some.mp hw).1
    have hvs : vs.take k ++ w :: vs.drop (k + 1) = vs := by
      rw [← getElem?_drop_cons hw, List.take_append_drop]
    have hlen : (vs.take k).length = k := by
      rw [List.length_take]; omega
    obtain ⟨heap1, fr1, sfr1, hadv, hf1, hy⟩ :=
      fmap_advance_yield src e (fun x => some (f x)) mem.length heap.length (vs.take k)
        ((vs.take k).map f) (vs.drop (k + 1)) 0 _ _ _ w (f w) hf
        (by rw [hvs]; exact hready) (by simp [List.map_map, Function.comp_def]) rfl
    rw [hlen] at hadv
    refine ⟨heap1, fr1, sfr1, ?_, hf1, ?_, hy.point, ?_, hy.memory, hy.source_point,
      hy.source_operand, ?_, ?_, hy.source_rest⟩
    · rw [hg, begin_advance_eq_advance]
      exact hadv
    · rw [operator_deref_frame hf1]
      exact value_at_yield hy.operand hy.m_value
    · rw [hy.invoked, hlen]; omega
    · rw [hy.source_yields, hlen]; omega
    · rw [hy.source_resumes, hlen]; omega
  · obtain ⟨heap1, fr1, sfr1, hadv, hf1, hp, -, -, -, hinv, -, -, hmem, hsp, hsy, -⟩ :=
      fmap_advance_end src e (fun x => some (f x)) mem.length heap.length vs (vs.map f) 0
        _ _ _ hf hready (by simp [List.map_map, Function.comp_def])
    refine ⟨heap1, fr1, sfr1, ?_, hf1, hp, by simpa using hinv, hmem, hsp,
      by simpa using hsy⟩
    rw [hg, begin_advance_eq_advance]
    exact hadv

/-- C12, at `f = x + 10` on `Test::Range12`, after `begin` and one advance:
the pending value is `12` and the source is suspended on `2`. -/
theorem fmap_pulls_one_at_a_time_witness :
    emits Test.Range12_body Ending.returns 0 [1, 2] ∧
    ∃ heap1 fr sfr,
      begin_advance (fmap_body Test.Range12_body) 1
          (fmap (fun x : Int => some (x + 10)) (Test.Range12 []).1 (Test.Range12 []).2 []).1
          (fmap (fun x : Int => some (x + 10)) (Test.Range12 []).1 (Test.Range12 []).2 []).2
        = Except.ok ({ m_coroutine := some 0 }, heap1) ∧
      Heap.frame heap1 0 = some fr ∧
      iterator.operator_deref { m_coroutine := some 0 } heap1 = Except.ok (2 + 10 : Int) ∧
      fr.point = SuspendPoint.yield ∧ fr.vars.invoked = 1 + 1 ∧
      Heap.frame fr.vars.memory 0 = some sfr ∧
      sfr.point = SuspendPoint.yield ∧ sfr.operand = some 2 ∧
      sfr.yields = 1 + 1 ∧ sfr.resumes = 1 + 1 ∧
      emits Test.Range12_body Ending.returns sfr.vars (([1, 2] : List Int).drop (1 + 1)) :=
  ⟨⟨1, rfl, 2, rfl, 2, none, rfl⟩,
   (fmap_pulls_one_at_a_time Test.Range12_body (fun x : Int => x + 10) Ending.returns 0
      [1, 2] [] [] ⟨1, rfl, 2, rfl, 2, none, rfl⟩).1 1 2 rfl⟩

/-- C13. Dereference and sentinel comparison are projections of the coroutine
state: they read the memory and return no memory.  For every iterator whose
coroutine is suspended at a `co_yield`, in a memory satisfying the slot
invariant, every sequence of dereferences and comparisons (in both operand
orders) returns, at each dereference, the operand `v` stored by the last
resumption and, at each comparison, "not equal to the sentinel". -/
theorem observations_pure {σ T : Type} (heap : Heap σ T) (a : Nat) (fr : Frame σ T)
    (obs : List Observation) (hinv : Heap.slot_inv heap)
    (hf : Heap.frame heap a = some fr) (hp : fr.point = SuspendPoint.yield) :
    ∃ v, fr.operand = some v ∧
      obs.map (observe { m_coroutine := some a } heap) = obs.map (observed_at_yield v) := by
  have hfr := hinv a fr hf
  simp only [Frame.slot_inv, hp] at hfr
  obtain ⟨hm, ho, -⟩ := hfr
  obtain ⟨v, hv⟩ := Option.isSome_iff_exists.mp ho
  refine ⟨v, hv, ?_⟩
  apply List.map_congr_left
  intro o _
  cases o with
  | deref =>
    simp only [observe, observed_at_yield, operator_deref_frame hf, value_at_yield hv hm]
  | eq => simp [observe, observed_at_yield, operator_eq_frame _ hf, hp]
  | ne => simp [observe, observed_at_yield, operator_ne_frame _ hf, hp]
  | sentinel_eq =>
    simp [observe, observed_at_yield, sentinel.operator_eq, operator_eq_frame _ hf, hp]
  | sentinel_ne =>
    simp [observe, observed_at_yield, sentinel.operator_ne, operator_ne_frame _ hf, hp]

/-- C13, at `Test::Range12` after `begin`: dereferencing twice around two
comparisons reads `1` both times and compares unequal both times. -/
theorem observations_pure_witness :
    Heap.slot_inv Test.Range12_begun ∧
    generator.begin Test.Range12_body (Test.Range12 []).1 (Test.Range12 []).2 =
      Except.ok ({ m_coroutine := some 0 }, Test.Range12_begun) ∧
    ∃ v, (some 1 : Option Int) = some v ∧
      [Observation.deref, Observation.eq, Observation.sentinel_ne, Observation.deref].map
        (observe { m_coroutine := some 0 } Test.Range12_begun) =
      [Observation.deref, Observation.eq, Observation.sentinel_ne, Observation.deref].map
        (observed_at_yield v) :=
  have hinv : Heap.slot_inv Test.Range12_begun :=
    begin_slot_inv Test.Range12_body (Test.Range12 []).1
      (invoke_slot_inv 0 slot_inv_nil)
      (rfl : generator.begin Test.Range12_body (Test.Range12 []).1 (Test.Range12 []).2 =
        Except.ok ({ m_coroutine := some 0 }, Test.Range12_begun))
  ⟨hinv, rfl, observations_pure Test.Range12_begun 0 _ _ hinv rfl rfl⟩

/-- C14. `begin` is not idempotent: on a non-null handle it is the same step
as `++` (it calls `resume()` once and returns the iterator on the handle).
For a producer emitting `v1, v2, rest`, the first `begin` resumes the producer
once and leaves it on `v1`; a second `begin`, without any advance, resumes it
a second time and leaves the iterator on `v2`, and iterating from there reads
`v2 :: rest`: `v1` is skipped. -/
theorem begin_not_idempotent {σ T : Type} (body : σ → Outcome σ T) (e : Ending) (args : σ)
    (v1 v2 : T) (rest : List T) (heap : Heap σ T) (k : Nat)
    (he : emits body e args (v1 :: v2 :: rest)) :
    (∀ (a : Nat) (hp : Heap σ T),
      generator.begin body { m_coroutine := some a } hp =
        iterator.operator_inc body { m_coroutine := some a } hp) ∧
    ∃ it1 heap1 fr1 it2 heap2 fr2 r,
      (invoke args heap).1.begin body (invoke args heap).2 = Except.ok (it1, heap1) ∧
      it1.operator_deref heap1 = Except.ok v1 ∧
      Heap.frame heap1 heap.length = some fr1 ∧ fr1.resumes = 1 ∧ fr1.yields = 1 ∧
      (invoke args heap).1.begin body heap1 = Except.ok (it2, heap2) ∧
      it2.operator_deref heap2 = Except.ok v2 ∧
      Heap.frame heap2 heap.length = some fr2 ∧ fr2.resumes = 2 ∧ fr2.yields = 2 ∧
      iterate body (rest.length + 2 + k) it2 heap2 = Except.ok (some r) ∧
      r.values = v2 :: rest ∧
      r.it.operator_eq ({} : sentinel) r.heap = Except.ok true := by
  refine ⟨fun a hp => begin_eq_inc body a hp, ?_⟩
  obtain ⟨hg, hf⟩ := invoke_frame args heap
  obtain ⟨s1, hb1, s2, hb2, hrest⟩ := he
  have hr1 := resume_co_yield body hf (by simp) hb1
  have hf1 := frame_set_same (invoke args heap).2 heap.length (some
    { point := SuspendPoint.yield, vars := s1, operand := some v1,
      promise := { m_value := pointer_type.operand (0 + 1) },
      yields := 0 + 1, resumes := 0 + 1 }) (frame_lt_length hf)
  have hr2 := resume_co_yield body hf1 (by simp) hb2
  have hf2 := frame_set_same
    ((invoke args heap).2.set heap.length (some
      { point := SuspendPoint.yield, vars := s1, operand := some v1,
        promise := { m_value := pointer_type.operand (0 + 1) },
        yields := 0 + 1, resumes := 0 + 1 })) heap.length (some
    { point := SuspendPoint.yield, vars := s2, operand := some v2,
      promise := { m_value := pointer_type.operand (0 + 1 + 1) },
      yields := 0 + 1 + 1, resumes := 0 + 1 + 1 }) (frame_lt_length hf1)
  obtain ⟨r, fr3, hit, hvals, -, hrit, hfr3, hpt, -⟩ :=
    iterate_emits body e heap.length rest _ _ v2 (rest.length + 2 + k) hf2 rfl rfl rfl hrest
      (by omega)
  refine ⟨{ m_coroutine := some heap.length }, _, _, { m_coroutine := some heap.length },
    _, _, r, ?_, ?_, hf1, rfl, rfl, ?_, ?_, hf2, rfl, rfl, hit, hvals, ?_⟩
  · rw [hg]
    exact begin_handle body hr1
  · rw [operator_deref_frame hf1]
    exact value_at_yield rfl rfl
  · rw [hg]
    exact begin_handle body hr2
  · rw [operator_deref_frame hf2]
    exact value_at_yield rfl rfl
  · rw [hrit, operator_eq_frame _ hfr3]
    simp [hpt]

/-- C14, at `Test::Range12`: after two calls of `begin` the loop reads only
`2`. -/
theorem begin_not_idempotent_witness :
    emits Test.Range12_body Ending.returns 0 [1, 2] ∧
    ∃ it1 heap1 fr1 it2 heap2 fr2 r,
      (Test.Range12 []).1.begin Test.Range12_body (Test.Range12 []).2
        = Except.ok (it1, heap1) ∧
      it1.operator_deref heap1 = Except.ok (1 : Int) ∧
      Heap.frame heap1 0 = some fr1 ∧ fr1.resumes = 1 ∧ fr1.yields = 1 ∧
      (Test.Range12 []).1.begin Test.Range12_body heap1 = Except.ok (it2, heap2) ∧
      it2.operator_deref heap2 = Except.ok (2 : Int) ∧
      Heap.frame heap2 0 = some fr2 ∧ fr2.resumes = 2 ∧ fr2.yields = 2 ∧
      iterate Test.Range12_body (([] : List Int).length + 2 + 0) it2 heap2
        = Except.ok (some r) ∧
      r.values = [2] ∧
      r.it.operator_eq ({} : sentinel) r.heap = Except.ok true :=
  ⟨⟨1, rfl, 2, rfl, 2, none, rfl⟩,
   (begin_not_idempotent Test.Range12_body Ending.returns 0 1 2 [] [] 0
      ⟨1, rfl, 2, rfl, 2, none, rfl⟩).2⟩

/-- C15. A fault raised by the transform truncates the mapped sequence
silently.  For a source that emits `pre ++ w :: post`, and a transform that
returns `us` on `pre` and throws on `w`, full iteration of `fmap(f, source)`
returns normally, reads exactly `us`, and ends equal to the sentinel with the
result at its final suspend point; `f` has been called `pre.length + 1` times,
and the source is left suspended on `w` after `pre.length + 1` emitted values,
with all of `post` still to emit: none of it was pulled. -/
theorem transform_fault_truncates {σ S U : Type} (src : σ → Outcome σ S)
    (func : S → Option U) (e : Ending) (args : σ) (pre : List S) (w : S) (post : List S)
    (us : List U) (mem : Heap σ S) (heap : Heap (fmap_vars σ S U) U) (k : Nat)
    (he : emits src e args (pre ++ w :: post)) (hpre : pre.map func = us.map some)
    (hw : func w = none) :
    ∃ r fr sfr,
      range_for (fmap_body src) (us.length + 1 + k)
          (fmap func (invoke args mem).1 (invoke args mem).2 heap).1
          (fmap func (invoke args mem).1 (invoke args mem).2 heap).2
        = Except.ok (some r) ∧
      r.values = us ∧ r.advances = us.length ∧
      r.it.operator_eq ({} : sentinel) r.heap = Except.ok true ∧
      Heap.frame r.heap heap.length = some fr ∧
      fr.point = SuspendPoint.final ∧ fr.vars.invoked = pre.length + 1 ∧
      Heap.frame fr.vars.memory mem.length = some sfr ∧
      sfr.point = SuspendPoint.yield ∧ sfr.operand = some w ∧
      sfr.yields = pre.length + 1 ∧ sfr.resumes = pre.length + 1 ∧
      emits src e sfr.vars post := by
  obtain ⟨hg, hf⟩ := fmap_frame func (invoke args mem).1 (invoke args mem).2 heap
  have hready := fmap_invoke_ready src e func args (pre ++ w :: post) mem he
  have hlen : us.length = pre.length := by
    have := congrArg List.length hpre
    simpa using this.symm
  have hemits : emits (fmap_body src) Ending.throws
      ({ func := func, source := (invoke args mem).1, memory := (invoke args mem).2,
         it := none, invoked := 0 } : fmap_vars σ S U) us :=
    fmap_emits_fault src func e mem.length w post hw pre us _ _ rfl rfl (Or.inl rfl)
      (invoke_frame args mem).2 (by simp) he hpre
  obtain ⟨r, fr1, hrun, hvals, hadv, hrit, hfr1, hpt, -⟩ :=
    range_for_emits (fmap_body src) Ending.throws heap.length us _ _
      (us.length + 1 + k) hf (by simp) hemits (by omega)
  have hba := range_for_begin_advance (fmap_body src) _ _ _ r hrun
  rw [hadv, hlen, begin_advance_eq_advance] at hba
  obtain ⟨heap2, fr2, sfr2, hadv2, hf2, hp2, -, -, -, hinv2, -, -, hmem2, hsp2, hso2, hsy2,
      hsr2, hrest2⟩ :=
    fmap_advance_fault src e func mem.length heap.length pre us post 0 _ _ _ w hf hready
      hpre hw
  rw [hadv2] at hba
  have hheap : heap2 = r.heap := by
    injection hba with h1
    exact (Prod.mk.inj h1).2
  subst hheap
  refine ⟨r, fr2, sfr2, by rw [hg]; exact hrun, hvals, hadv, ?_, hf2, hp2,
    by simpa using hinv2, hmem2, hsp2, hso2, by simpa using hsy2, by simpa using hsr2, hrest2⟩
  rw [hrit, operator_eq_frame _ hfr1]
  simp [hpt]

/-- C15, at a transform that maps `1` to `10` and throws on `2`, over a
producer emitting `1, 2, 3`: the loop reads `10` only and `3` is never pulled. -/
theorem transform_fault_truncates_witness :
    emits (fun pc : Nat => match pc with
        | 0 => Outcome.co_yield (1 : Int) 1
        | 1 => Outcome.co_yield 2 2
        | 2 => Outcome.co_yield 3 3
        | _ => Outcome.co_return 3 none) Ending.returns 0 ([1] ++ 2 :: [3]) ∧
    ∃ r fr sfr,
      range_for (fmap_body (fun pc : Nat => match pc with
            | 0 => Outcome.co_yield (1 : Int) 1
            | 1 => Outcome.co_yield 2 2
            | 2 => Outcome.co_yield 3 3
            | _ => Outcome.co_return 3 none)) (([10] : List Int).length + 1 + 0)
          (fmap (fun x : Int => if x = 2 then none else some (10 * x))
            (invoke (0 : Nat) ([] : Heap Nat Int)).1
            (invoke (0 : Nat) ([] : Heap Nat Int)).2 []).1
          (fmap (fun x : Int => if x = 2 then none else some (10 * x))
            (invoke (0 : Nat) ([] : Heap Nat Int)).1
            (invoke (0 : Nat) ([] : Heap Nat Int)).2 []).2
        = Except.ok (some r) ∧
      r.values = [10] ∧ r.advances = ([10] : List Int).length ∧
      r.it.operator_eq ({} : sentinel) r.heap = Except.ok true ∧
      Heap.frame r.heap 0 = some fr ∧
      fr.point = SuspendPoint.final ∧ fr.vars.invoked = ([1] : List Int).length + 1 ∧
      Heap.frame fr.vars.memory 0 = some sfr ∧
      sfr.point = SuspendPoint.yield ∧ sfr.operand = some 2 ∧
      sfr.yields = ([1] : List Int).length + 1 ∧
      sfr.resumes = ([1] : List Int).length + 1 ∧
      emits (fun pc : Nat => match pc with
        | 0 => Outcome.co_yield (1 : Int) 1
        | 1 => Outcome.co_yield 2 2
        | 2 => Outcome.co_yield 3 3
        | _ => Outcome.co_return 3 none) Ending.returns sfr.vars [3] :=
  ⟨⟨1, rfl, 2, rfl, 3, rfl, 3, none, rfl⟩,
   transform_fault_truncates
     (fun pc : Nat => match pc with
        | 0 => Outcome.co_yield (1 : Int) 1
        | 1 => Outcome.co_yield 2 2
        | 2 => Outcome.co_yield 3 3
        | _ => Outcome.co_return 3 none)
     (fun x : Int => if x = 2 then none else some (10 * x)) Ending.returns 0 [1] 2 [3] [10]
     [] [] 0 ⟨1, rfl, 2, rfl, 3, rfl, 3, none, rfl⟩ (by decide) (by decide)⟩

/-- C11. Single ownership under transfer.  Let `src` own the live coroutine
state `fr` at address `a`, while `dst` and the objects `others` do not own it
and `dst` owns nothing or a live state.  Then exactly one generator object owns
`a`, and:
move-construction from `src` gives a generator holding `a` and leaves `src`
null, still with exactly one owner, and the new generator behaves as `src` did
(`begin` gives the same result; the memory, so the phase, the pending value and
the remaining sequence, is untouched);
destroying both afterwards destroys the state at `a` exactly once: the
destructor of the moved-from object does nothing, before or after the other
one, and no other state changes;
`swap` exchanges the handles and keeps exactly one owner;
move-assignment `dst = std::move(src)` leaves `src` null and `dst` holding `a`
with the identical state `fr`, destroys the state `dst` owned before, changes
no other state, and leaves exactly one owner of `a` and none of the destroyed
state;
self-assignment changes nothing;
and a newly created coroutine state has the returned generator as its only
owner, whenever the existing objects hold addresses of existing states. -/
theorem single_ownership {σ T : Type} (body : σ → Outcome σ T) (heap : Heap σ T)
    (src dst : generator) (others : List generator) (a : Nat) (fr : Frame σ T)
    (hsrc : src.m_coroutine = some a) (hf : Heap.frame heap a = some fr)
    (hdst : dst.m_coroutine ≠ some a)
    (hlive : ∀ b, dst.m_coroutine = some b → ∃ frb, Heap.frame heap b = some frb)
    (hothers : ∀ g ∈ others, g.m_coroutine ≠ some a) :
    owners a (src :: dst :: others) = 1 ∧
    ((generator.move src).1.m_coroutine = some a ∧
      (generator.move src).2.m_coroutine = none ∧
      owners a ((generator.move src).1 :: (generator.move src).2 :: dst :: others) = 1 ∧
      (generator.move src).1.begin body heap = src.begin body heap) ∧
    ((generator.move src).2.destructor heap = Except.ok heap ∧
      ∃ heap1, (generator.move src).1.destructor heap = Except.ok heap1 ∧
        Heap.frame heap1 a = none ∧
        (∀ b, b ≠ a → Heap.frame heap1 b = Heap.frame heap b) ∧
        (generator.move src).2.destructor heap1 = Except.ok heap1) ∧
    ((dst.swap src).1.m_coroutine = some a ∧
      (dst.swap src).2.m_coroutine = dst.m_coroutine ∧
      owners a ((dst.swap src).1 :: (dst.swap src).2 :: others) = 1) ∧
    (∃ heap2,
      dst.operator_assign src heap
        = Except.ok ({ m_coroutine := some a }, { m_coroutine := none }, heap2) ∧
      Heap.frame heap2 a = some fr ∧
      (∀ b, dst.m_coroutine = some b → Heap.frame heap2 b = none) ∧
      (∀ b, dst.m_coroutine ≠ some b → Heap.frame heap2 b = Heap.frame heap b) ∧
      owners a ({ m_coroutine := some a } :: { m_coroutine := none } :: others) = 1 ∧
      (∀ b, dst.m_coroutine = some b →
        owners b [{ m_coroutine := some a }, { m_coroutine := none }] = 0)) ∧
    src.operator_assign_self heap = Except.ok (src, heap) ∧
    (∀ args : σ,
      (∀ g ∈ src :: dst :: others, ∀ b, g.m_coroutine = some b → b < heap.length) →
      owners heap.length ((invoke args heap).1 :: src :: dst :: others) = 1) := by
  have hlt := frame_lt_length hf
  have hoth : List.countP (fun g : generator => decide (g.m_coroutine = some a)) others = 0 := by
    rw [List.countP_eq_zero]
    intro g hg
    simpa using hothers g hg
  refine ⟨?_, ⟨hsrc, rfl, ?_, ?_⟩, ⟨rfl, ?_⟩, ⟨hsrc, rfl, ?_⟩, ?_, ?_, ?_⟩
  · simp [owners, List.countP_cons, hsrc, hdst, hoth]
  · simp [owners, List.countP_cons, generator.move, hsrc, hdst, hoth]
  · simp [generator.begin, generator.move, iterator.ctor]
  · refine ⟨heap.set a none, ?_, frame_set_same heap a none hlt, ?_, rfl⟩
    · simp [generator.destructor, generator.move, hsrc, coroutine_handle.destroy, hf]
    · intro b hb
      exact frame_set_other heap a b none (Ne.symm hb)
  · simp [owners, List.countP_cons, generator.swap, hsrc, hdst, hoth]
  · cases hd : dst.m_coroutine with
    | none =>
      refine ⟨heap, ?_, hf, ?_, ?_, ?_, ?_⟩
      · simp [generator.operator_assign, generator.swap, generator.move,
          generator.destructor, hd, hsrc]
      · intro b hb
        cases hb
      · intro b _
        rfl
      · simp [owners, List.countP_cons, hoth]
      · intro b hb
        cases hb
    | some c =>
      have hca : c ≠ a := by
        intro h
        exact hdst (by rw [hd, h])
      obtain ⟨frc, hfc⟩ := hlive c hd
      refine ⟨heap.set c none, ?_, ?_, ?_, ?_, ?_, ?_⟩
      · simp [generator.operator_assign, generator.swap, generator.move,
          generator.destructor, hd, hsrc, coroutine_handle.destroy, hfc]
      · rw [frame_set_other heap c a none hca]
        exact hf
      · intro b hb
        cases hb
        exact frame_set_same heap c none (frame_lt_length hfc)
      · intro b hb
        have hcb : c ≠ b := by
          intro h
          exact hb (by rw [h])
        exact frame_set_other heap c b none hcb
      · simp [owners, List.countP_cons, hoth]
      · intro b hb
        cases hb
        simp [owners, List.countP_cons, Ne.symm hca]
  · cases src with
    | mk h =>
      simp [generator.operator_assign_self, generator.swap, generator.move,
        generator.destructor]
  · intro args hall
    have hzero : List.countP (fun g : generator => decide (g.m_coroutine = some heap.length))
        (src :: dst :: others) = 0 := by
      rw [List.countP_eq_zero]
      intro g hg
      have := hall g hg heap.length
      simp only [decide_eq_true_eq]
      intro h
      exact Nat.lt_irrefl _ (this h)
    have hnew : (invoke args heap).1.m_coroutine = some heap.length := rfl
    rw [owners, List.countP_cons, hzero]
    simp [hnew]

/-- C11, at two `Test::Range12` coroutines: `src` owns the one at address `0`
and `dst` the one at address `1`. -/
theorem single_ownership_witness :
    Heap.frame (Test.Range12 (Test.Range12 []).2).2 0 = some
      { point := SuspendPoint.initial, vars := 0, operand := none,
        promise := promise_type.default, yields := 0, resumes := 0 } ∧
    ∃ heap2,
      generator.operator_assign ({ m_coroutine := some 1 } : generator)
          { m_coroutine := some 0 } (Test.Range12 (Test.Range12 []).2).2
        = Except.ok ({ m_coroutine := some 0 }, { m_coroutine := none }, heap2) ∧
      Heap.frame heap2 0 = some
        { point := SuspendPoint.initial, vars := 0, operand := none,
          promise := promise_type.default, yields := 0, resumes := 0 } ∧
      (∀ b, ({ m_coroutine := some 1 } : generator).m_coroutine = some b →
        Heap.frame heap2 b = none) ∧
      (∀ b, ({ m_coroutine := some 1 } : generator).m_coroutine ≠ some b →
        Heap.frame heap2 b = Heap.frame (Test.Range12 (Test.Range12 []).2).2 b) ∧
      owners 0 ({ m_coroutine := some 0 } :: { m_coroutine := none } :: []) = 1 ∧
      (∀ b, ({ m_coroutine := some 1 } : generator).m_coroutine = some b →
        owners b [{ m_coroutine := some 0 }, { m_coroutine := none }] = 0) :=
  ⟨rfl,
   (single_ownership Test.Range12_body (Test.Range12 (Test.Range12 []).2).2
      { m_coroutine := some 0 } { m_coroutine := some 1 } [] 0 _ rfl rfl (by decide)
      (fun b hb => by
        cases hb
        exact ⟨_, rfl⟩)
      (fun g hg => by cases hg)).2.2.2.2.1⟩

end Lib
